import Mathlib

/-!
# Verification of the container-build-flow action's core logic

This file gives a shallow embedding of the two core components of the
`container-build-flow-action` repository and proves properties about them:

* the **flow classifier** of `src/scripts/detect-build-flow.sh`
  (`detect_build_flow`, `is_semver_tag`, `sanitize_docker_tag`,
  `get_short_sha` and the tag-generation block), and
* the **vulnerability differ** of `src/scripts/generate-comparison.ts`
  (`extractVulnerabilities`, `countBySeverity`, `generateComparison`)
  together with the non-diffing summary script (`parseTrivyResults`).

Bash/JS strings are modelled as Lean `String`s; where the scripts index or
substitute by character, the embedding works on `String.data` (the character
list).  Bash regular expression tests are compiled to deterministic
character-list matchers; the compilation is noted at each definition.
-/

namespace BuildFlow

/-! ## Character classes used by the shell regexes

`[0-9]` is `Char.isDigit`, `[a-zA-Z]` is `Char.isAlpha`; the suffix class
`[a-zA-Z0-9.-]` of the semver regex is `isIdentChar`. -/

def isIdentChar (c : Char) : Bool :=
  c.isAlpha || c.isDigit || c = '.' || c = '-'

/-- Bash `${version#v}`: remove one leading `v` when present (this is also
the deterministic reading of the regex prelude `^v?` followed by a digit
class, since `v` is not a digit). -/
def dropLeadV (l : List Char) : List Char :=
  match l with
  | c :: t => if c = 'v' then t else l
  | [] => []

/-- The suffix part `(-[a-zA-Z0-9.-]+)?(\+[a-zA-Z0-9.-]+)?$` of the semver
regex of `is_semver_tag` (detect-build-flow.sh line 109), compiled to a
deterministic matcher: the char class contains `-` and `.` but not `+`,
so a maximal class run after `-` is forced, and what follows must be the
end or the build-metadata part. -/
def matchSuffix (l : List Char) : Bool :=
  match l with
  | [] => true
  | c :: t =>
    if c = '-' then
      let pre := t.takeWhile isIdentChar
      let rest := t.dropWhile isIdentChar
      !pre.isEmpty &&
        (match rest with
         | [] => true
         | c2 :: u => if c2 = '+' then !u.isEmpty && u.all isIdentChar else false)
    else if c = '+' then !t.isEmpty && t.all isIdentChar
    else false

/-- The body `[0-9]+\.[0-9]+\.[0-9]+` of the semver regex followed by
`matchSuffix`, on a char list that already had the optional `v` removed.
Each `[0-9]+\.` forces the maximal digit run (a digit cannot match `\.`,
and `.` cannot match `[0-9]`). -/
def semverCore (l : List Char) : Bool :=
  let d1 := l.takeWhile Char.isDigit
  match l.dropWhile Char.isDigit with
  | [] => false
  | c1 :: r1 =>
    if c1 = '.' then
      let d2 := r1.takeWhile Char.isDigit
      match r1.dropWhile Char.isDigit with
      | [] => false
      | c2 :: r2 =>
        if c2 = '.' then
          let d3 := r2.takeWhile Char.isDigit
          !d1.isEmpty && !d2.isEmpty && !d3.isEmpty &&
            matchSuffix (r2.dropWhile Char.isDigit)
        else false
    else false

/-- `is_semver_tag` (detect-build-flow.sh lines 104-113): the bash test
`[[ "$ref" =~ ^v?[0-9]+\.[0-9]+\.[0-9]+(-[a-zA-Z0-9.-]+)?(\+[a-zA-Z0-9.-]+)?$ ]]`. -/
def is_semver_tag (ref : String) : Bool :=
  semverCore (dropLeadV ref.data)

/-- Drop a literal character sequence from the front of a list: `some`
the remainder when the list starts with the literal, `none` otherwise. -/
def dropLit : List Char → List Char → Option (List Char)
  | [], l => some l
  | _ :: _, [] => none
  | p :: ps, c :: cs => if c = p then dropLit ps cs else none

/-- The characters of the tag namespace `refs/tags/`. -/
def tagNsChars : List Char :=
  'r' :: 'e' :: 'f' :: 's' :: '/' :: 't' :: 'a' :: 'g' :: 's' :: '/' :: []

/-- The characters of the branch namespace `refs/heads/`. -/
def headsNsChars : List Char :=
  'r' :: 'e' :: 'f' :: 's' :: '/' :: 'h' :: 'e' :: 'a' :: 'd' :: 's' :: '/' :: []

/-- Bash `${s#refs/tags/}` (remove the literal prefix when present). -/
def stripTagNs (s : String) : String :=
  match dropLit tagNsChars s.data with
  | some rest => String.mk rest
  | none => s

/-- Bash `[[ "$s" =~ ^refs/tags/ ]]`. -/
def hasTagNs (s : String) : Bool :=
  (dropLit tagNsChars s.data).isSome

/-- Bash `${s#refs/heads/}` (remove the literal prefix when present). -/
def stripHeadsNs (s : String) : String :=
  match dropLit headsNsChars s.data with
  | some rest => String.mk rest
  | none => s

/-- `extract_semver` (detect-build-flow.sh lines 116-126): strip a
`refs/tags/` prefix, echo the result when it is a semver, fail otherwise. -/
def extract_semver (ref : String) : Option String :=
  let r := stripTagNs ref
  if is_semver_tag r then some r else none

/-- `get_short_sha` (detect-build-flow.sh lines 86-89): bash `${sha:0:7}`,
the first seven characters (all of `sha` when it is shorter). -/
def get_short_sha (sha : String) : String :=
  String.mk (sha.data.take 7)

/-- `sanitize_docker_tag` (detect-build-flow.sh lines 130-134): the bash
global substitution replacing every `+` with `-`. -/
def sanitize_docker_tag (tag : String) : String :=
  String.mk (tag.data.map (fun c => if c = '+' then '-' else c))

/-- The environment consumed by `detect_build_flow` (GitHub context and the
user configuration of `action.yml`).  `tagPre`/`tagSuf` stand for the
`TAG_PREFIX`/`TAG_SUFFIX` inputs. -/
structure GitHubEnv where
  eventName : String
  ref : String
  refType : String
  refName : String
  sha : String
  headRef : String
  baseRef : String
  mainBranch : String
  devBranch : String
  tagPre : String
  tagSuf : String

/-- The flow-detection if/elif chain of `detect_build_flow`
(detect-build-flow.sh lines 186-312).  Returns the pair
`(flow_type, short_sha)` as left by the chain — in the release branches
`short_sha` is overridden with the extracted version. -/
def detectFlowType (env : GitHubEnv) : String × String :=
  let short_sha := get_short_sha env.sha
  if env.eventName = "release" then
    let release_tag := stripTagNs env.ref
    if is_semver_tag release_tag then
      ("release", (extract_semver release_tag).getD short_sha)
    else
      ("wip", short_sha)
  else if env.eventName = "create" ∧ env.refType = "tag" then
    if is_semver_tag env.refName then
      ("release", (extract_semver env.refName).getD short_sha)
    else
      ("wip", short_sha)
  else if env.eventName = "push" ∧ hasTagNs env.ref then
    let tag_name := stripTagNs env.ref
    if is_semver_tag tag_name then
      ("release", (extract_semver tag_name).getD short_sha)
    else
      ("wip", short_sha)
  else if env.eventName = "pull_request" ∨ env.eventName = "pull_request_target" then
    if env.baseRef = env.devBranch then ("pr", short_sha)
    else if env.baseRef = env.mainBranch ∧ env.headRef = env.devBranch then ("dev", short_sha)
    else if env.baseRef = env.mainBranch then ("patch", short_sha)
    else ("wip", short_sha)
  else if env.eventName = "push" then
    let branch := stripHeadsNs env.ref
    if branch = env.devBranch then ("dev", short_sha)
    else if branch = env.mainBranch then ("staging", short_sha)
    else ("wip", short_sha)
  else
    ("wip", short_sha)

/-- The pre-release test of the tag-generation block
(detect-build-flow.sh line 342): bash
`[[ "$version_no_v" =~ ^[0-9]+\.[0-9]+\.[0-9]+-[a-zA-Z0-9.-]+ ]]`
(anchored at the start only), compiled deterministically as for
`semverCore`. -/
def isPrereleaseCheck (s : String) : Bool :=
  let l := s.data
  let d1 := l.takeWhile Char.isDigit
  match l.dropWhile Char.isDigit with
  | [] => false
  | c1 :: r1 =>
    if c1 = '.' then
      let d2 := r1.takeWhile Char.isDigit
      match r1.dropWhile Char.isDigit with
      | [] => false
      | c2 :: r2 =>
        if c2 = '.' then
          let d3 := r2.takeWhile Char.isDigit
          match r2.dropWhile Char.isDigit with
          | [] => false
          | c3 :: r3 =>
            if c3 = '-' then
              match r3 with
              | [] => false
              | c4 :: _ => !d1.isEmpty && !d2.isEmpty && !d3.isEmpty && isIdentChar c4
            else false
        else false
    else false

/-- The shape `isPrereleaseCheck` tests for after the three numeric
components: a `-` followed by at least one character of the suffix class
(used to state evaluation lemmas about `isPrereleaseCheck`). -/
def preReleaseShape (suffix : List Char) : Bool :=
  match suffix with
  | c3 :: c4 :: _ => if c3 = '-' then isIdentChar c4 else false
  | _ => false

/-- The major/minor extraction of the tag-generation block
(detect-build-flow.sh line 344): bash
`[[ "$version_no_v" =~ ^([0-9]+)\.([0-9]+)\.([0-9]+) ]]` with
`BASH_REMATCH[1]`/`BASH_REMATCH[2]`. -/
def extractMajorMinor (s : String) : Option (String × String) :=
  let l := s.data
  let d1 := l.takeWhile Char.isDigit
  match l.dropWhile Char.isDigit with
  | [] => none
  | c1 :: r1 =>
    if c1 = '.' then
      let d2 := r1.takeWhile Char.isDigit
      match r1.dropWhile Char.isDigit with
      | [] => none
      | c2 :: r2 =>
        if c2 = '.' then
          let d3 := r2.takeWhile Char.isDigit
          if d1.isEmpty || d2.isEmpty || d3.isEmpty then none
          else some (String.mk d1, String.mk d2)
        else none
    else none

/-- The tag-generation block of `detect_build_flow`
(detect-build-flow.sh lines 318-364), returning the flow type and the
generated tag list (the script joins the list with commas). -/
def generateTags (env : GitHubEnv) : String × List String :=
  let ft := detectFlowType env
  let flow_type := ft.1
  let short_sha := ft.2
  if flow_type = "release" then
    let sanitized_version := sanitize_docker_tag short_sha
    let base_tag := sanitized_version
    let full_tag := env.tagPre ++ base_tag ++ env.tagSuf
    let version_no_v := String.mk (dropLeadV short_sha.data)
    let additional_tags :=
      if isPrereleaseCheck version_no_v then []
      else
        match extractMajorMinor version_no_v with
        | some md => [env.tagPre ++ md.1 ++ "." ++ md.2 ++ env.tagSuf,
                      env.tagPre ++ "latest" ++ env.tagSuf]
        | none => []
    (flow_type, full_tag :: additional_tags)
  else
    let base_tag := flow_type ++ "-" ++ short_sha
    (flow_type, [env.tagPre ++ base_tag ++ env.tagSuf])

/-! ## The vulnerability differ (`src/scripts/generate-comparison.ts`)

JS `Map<string, ProcessedVulnerability>` is modelled as an association list
in insertion order; `Map.set` updates an existing key in place and appends a
new one, and `Map.values()` is the second projection over the list.
`toUpperCase`/`toLowerCase` are modelled character-wise with the core
(ASCII) `Char.toUpper`/`Char.toLower`, matching their behaviour on the
basic latin range the scripts compare against. -/

/-- JS `String.prototype.toUpperCase`, character-wise (ASCII model). -/
def jsToUpper (s : String) : String :=
  String.mk (s.data.map Char.toUpper)

/-- JS `String.prototype.toLowerCase`, character-wise (ASCII model). -/
def jsToLower (s : String) : String :=
  String.mk (s.data.map Char.toLower)

/-- `TrivyVulnerability` of `src/scripts/types.ts` (the optional fields the
differ reads). -/
structure TrivyVulnerability where
  VulnerabilityID : Option String
  PkgName : Option String
  InstalledVersion : Option String
  FixedVersion : Option String
  Severity : Option String
  Title : Option String
  Description : Option String
deriving DecidableEq

/-- `TrivyResult` of `src/scripts/types.ts` (the field the differ reads). -/
structure TrivyResult where
  Vulnerabilities : Option (List TrivyVulnerability)
deriving DecidableEq

/-- `TrivyScanResults` of `src/scripts/types.ts` (the field the differ
reads). -/
structure TrivyScanResults where
  Results : Option (List TrivyResult)
deriving DecidableEq

/-- `ProcessedVulnerability` of `src/scripts/types.ts`. -/
structure ProcessedVulnerability where
  id : String
  package : String
  version : String
  severity : String
  title : String
  description : String
  fixedVersion : String
deriving DecidableEq

/-- The identity-keyed map built by the differ. -/
abbrev VMap := List (String × ProcessedVulnerability)

/-- JS `Map.has`. -/
def hasKey (m : VMap) (k : String) : Bool :=
  m.any (fun p => p.1 == k)

/-- JS `Map.set`: update the value of an existing key in place, append a
fresh key at the end. -/
def mapSet (m : VMap) (k : String) (v : ProcessedVulnerability) : VMap :=
  if hasKey m k then m.map (fun p => if p.1 == k then (k, v) else p)
  else m ++ [(k, v)]

/-- JS `Map.get` (for stating lookup properties). -/
def mapGet (m : VMap) (k : String) : Option ProcessedVulnerability :=
  (m.find? (fun p => p.1 == k)).map (fun p => p.2)

/-- The keys of the map, in order. -/
def mapKeys (m : VMap) : List String :=
  m.map (fun p => p.1)

/-- The key `${vulnId}-${pkgName}` built by `extractVulnerabilities`
(generate-comparison.ts lines 41-43). -/
def keyOf (vuln : TrivyVulnerability) : String :=
  (vuln.VulnerabilityID.getD "UNKNOWN") ++ "-" ++ (vuln.PkgName.getD "unknown")

/-- The `ProcessedVulnerability` record built by `extractVulnerabilities`
(generate-comparison.ts lines 45-53). -/
def recordOf (vuln : TrivyVulnerability) : ProcessedVulnerability :=
  { id := vuln.VulnerabilityID.getD "UNKNOWN"
    package := vuln.PkgName.getD "unknown"
    version := vuln.InstalledVersion.getD ""
    severity := jsToUpper (vuln.Severity.getD "UNKNOWN")
    title := vuln.Title.getD ""
    description := vuln.Description.getD ""
    fixedVersion := vuln.FixedVersion.getD "" }

/-- `extractVulnerabilities` (generate-comparison.ts lines 31-58): walk
every result target and every vulnerability, keyed insertion into the map. -/
def extractVulnerabilities (results : TrivyScanResults) : VMap :=
  (results.Results.getD []).foldl
    (fun vulnerabilities result =>
      (result.Vulnerabilities.getD []).foldl
        (fun vulnerabilities vuln => mapSet vulnerabilities (keyOf vuln) (recordOf vuln))
        vulnerabilities)
    []

/-- `VulnerabilityCounts` of `src/scripts/types.ts`. -/
structure VulnerabilityCounts where
  critical : Nat
  high : Nat
  medium : Nat
  low : Nat
  unknown : Nat
  total : Nat
deriving DecidableEq

def VulnerabilityCounts.zero : VulnerabilityCounts :=
  { critical := 0, high := 0, medium := 0, low := 0, unknown := 0, total := 0 }

/-- The `switch` of `countBySeverity` (generate-comparison.ts lines 74-92):
bump the bucket selected by the lower-cased severity, and `total`. -/
def countStep (counts : VulnerabilityCounts) (vuln : ProcessedVulnerability) :
    VulnerabilityCounts :=
  let severity := jsToLower vuln.severity
  let counts :=
    if severity = "critical" then { counts with critical := counts.critical + 1 }
    else if severity = "high" then { counts with high := counts.high + 1 }
    else if severity = "medium" then { counts with medium := counts.medium + 1 }
    else if severity = "low" then { counts with low := counts.low + 1 }
    else { counts with unknown := counts.unknown + 1 }
  { counts with total := counts.total + 1 }

/-- `countBySeverity` (generate-comparison.ts lines 63-96): fold the bucket
switch over the map's values. -/
def countBySeverity (vulnerabilities : VMap) : VulnerabilityCounts :=
  vulnerabilities.foldl (fun counts p => countStep counts p.2) VulnerabilityCounts.zero

/-- The new-vulnerability loop (generate-comparison.ts lines 145-150):
keys in current but not in baseline. -/
def newVulnsOf (currentVulns baselineVulns : VMap) : VMap :=
  currentVulns.foldl
    (fun newVulns p =>
      if hasKey baselineVulns p.1 then newVulns else mapSet newVulns p.1 p.2)
    []

/-- The fixed-vulnerability loop (generate-comparison.ts lines 153-158):
keys in baseline but not in current. -/
def fixedVulnsOf (currentVulns baselineVulns : VMap) : VMap :=
  baselineVulns.foldl
    (fun fixedVulns p =>
      if hasKey currentVulns p.1 then fixedVulns else mapSet fixedVulns p.1 p.2)
    []

/-- The unchanged-vulnerability loop (generate-comparison.ts lines 161-166):
keys in both, with the current-side record. -/
def unchangedVulnsOf (currentVulns baselineVulns : VMap) : VMap :=
  currentVulns.foldl
    (fun unchangedVulns p =>
      if hasKey baselineVulns p.1 then mapSet unchangedVulns p.1 p.2 else unchangedVulns)
    []

/-- A `baseline`/`current` section of `VulnerabilityComparison`. -/
structure TotalSection where
  total : Nat
  vulnerabilities : List ProcessedVulnerability
deriving DecidableEq

/-- A `new`/`fixed`/`unchanged` section (`ComparisonSection` of types.ts). -/
structure ComparisonSection where
  total : Nat
  counts : VulnerabilityCounts
  vulnerabilities : List ProcessedVulnerability
deriving DecidableEq

/-- `VulnerabilityComparison` of `src/scripts/types.ts`; the optional
fields are `Option`s. -/
structure VulnerabilityComparison where
  comparison_available : Bool
  message : Option String
  baseline : Option TotalSection
  current : Option TotalSection
  new : Option ComparisonSection
  fixed : Option ComparisonSection
  unchanged : Option ComparisonSection
deriving DecidableEq

/-- The state of one of the two scan-result input files as
`generateComparison` observes it: the file may be absent
(`fs.existsSync` false), present but rejected by `JSON.parse` (which
throws with some message), or parsed into a document. -/
inductive ScanInput where
  | missing : ScanInput
  | unparseable : String → ScanInput
  | parsed : TrivyScanResults → ScanInput

/-- The result document written for an unavailable comparison
(generate-comparison.ts lines 109-112, 121-124, 214-217). -/
def unavailableComparison (msg : String) : VulnerabilityComparison :=
  { comparison_available := false, message := some msg,
    baseline := none, current := none, new := none, fixed := none, unchanged := none }

/-- The successful comparison report (generate-comparison.ts lines 138-199). -/
def successComparison (baselineResults currentResults : TrivyScanResults) :
    VulnerabilityComparison :=
  let baselineVulns := extractVulnerabilities baselineResults
  let currentVulns := extractVulnerabilities currentResults
  let newVulns := newVulnsOf currentVulns baselineVulns
  let fixedVulns := fixedVulnsOf currentVulns baselineVulns
  let unchangedVulns := unchangedVulnsOf currentVulns baselineVulns
  { comparison_available := true
    message := none
    baseline := some { total := baselineVulns.length
                       vulnerabilities := baselineVulns.map (fun p => p.2) }
    current := some { total := currentVulns.length
                      vulnerabilities := currentVulns.map (fun p => p.2) }
    new := some { total := newVulns.length, counts := countBySeverity newVulns
                  vulnerabilities := newVulns.map (fun p => p.2) }
    fixed := some { total := fixedVulns.length, counts := countBySeverity fixedVulns
                    vulnerabilities := fixedVulns.map (fun p => p.2) }
    unchanged := some { total := unchangedVulns.length
                        counts := countBySeverity unchangedVulns
                        vulnerabilities := unchangedVulns.map (fun p => p.2) } }

/-- `generateComparison` (generate-comparison.ts lines 101-224) as a
function of the observed states of its two input files.  The sequencing
follows the script: baseline existence, current existence, then parsing
(a parse failure is caught and reported as `Error: <message>`). -/
def generateComparison (baseline current : ScanInput) : VulnerabilityComparison :=
  match baseline with
  | ScanInput.missing => unavailableComparison "Baseline scan results not available"
  | ScanInput.unparseable err =>
    match current with
    | ScanInput.missing => unavailableComparison "Current scan results not available"
    | _ => unavailableComparison ("Error: " ++ err)
  | ScanInput.parsed baselineResults =>
    match current with
    | ScanInput.missing => unavailableComparison "Current scan results not available"
    | ScanInput.unparseable err => unavailableComparison ("Error: " ++ err)
    | ScanInput.parsed currentResults => successComparison baselineResults currentResults

/-! ## The non-diffing summarizer (`parseTrivyResults`)

The unnamed source `src/unnamed/part_004` parses a single scan document and
counts vulnerabilities per severity with no deduplication. -/

/-- The `switch` of `parseTrivyResults` (part_004 lines 79-96): bump the
bucket selected by the upper-cased raw severity. -/
def parseStep (counts : VulnerabilityCounts) (vuln : TrivyVulnerability) :
    VulnerabilityCounts :=
  let severity := jsToUpper (vuln.Severity.getD "UNKNOWN")
  if severity = "CRITICAL" then { counts with critical := counts.critical + 1 }
  else if severity = "HIGH" then { counts with high := counts.high + 1 }
  else if severity = "MEDIUM" then { counts with medium := counts.medium + 1 }
  else if severity = "LOW" then { counts with low := counts.low + 1 }
  else { counts with unknown := counts.unknown + 1 }

/-- The counting pass of `parseTrivyResults` (part_004 lines 62-101):
per-target, per-vulnerability bucket counts, then `total` as the sum of
the five buckets. -/
def parseTrivyCounts (results : TrivyScanResults) : VulnerabilityCounts :=
  let counts :=
    (results.Results.getD []).foldl
      (fun counts result =>
        (result.Vulnerabilities.getD []).foldl parseStep counts)
      VulnerabilityCounts.zero
  { counts with
    total := counts.critical + counts.high + counts.medium + counts.low + counts.unknown }

/-- The full traversal order of one scan document: every vulnerability of
every result target. -/
def allVulns (results : TrivyScanResults) : List TrivyVulnerability :=
  ((results.Results.getD []).map (fun result => result.Vulnerabilities.getD [])).flatten

/-! ## The spec's semantic-version grammar (§4.1)

The spec describes the recognizer as: an optional leading `v`, three
dot-separated non-negative integers, an optional pre-release suffix (`-`
then one or more dot/hyphen-separated alphanumeric identifiers), an
optional build-metadata suffix (`+` then one or more dot/hyphen-separated
alphanumeric identifiers).  `specSemver` renders this with identifiers as
non-empty alphanumeric runs (so a suffix may not begin or end with a
separator, nor contain two adjacent separators); `RelaxedSemver` is the
weakening in which a suffix is any non-empty run over the class
alphanumeric/dot/hyphen — the language of the script's regex. -/

/-- A separator between identifiers of a suffix: dot or hyphen. -/
def isSep (c : Char) : Bool := c = '.' || c = '-'

/-- An alphanumeric (identifier) character. -/
def isAlphaNumChar (c : Char) : Bool := c.isAlpha || c.isDigit

/-- One or more dot/hyphen-separated non-empty alphanumeric identifiers:
non-empty, every character alphanumeric or a separator, no separator at
either end and no two adjacent separators. -/
def specIdentSeq (l : List Char) : Bool :=
  !l.isEmpty && l.all (fun c => isAlphaNumChar c || isSep c) &&
    (match l.head? with | some c => !isSep c | none => true) &&
    (match l.getLast? with | some c => !isSep c | none => true) &&
    ((l.zip l.tail).all (fun p => !(isSep p.1 && isSep p.2)))

/-- The suffix of the spec grammar: optional pre-release (up to the first
`+`, which no identifier or separator may contain) and optional build
metadata. -/
def specMatchSuffix (l : List Char) : Bool :=
  match l with
  | [] => true
  | c :: t =>
    if c = '-' then
      let pre := t.takeWhile (fun c => !(c = '+'))
      let rest := t.dropWhile (fun c => !(c = '+'))
      specIdentSeq pre &&
        (match rest with
         | [] => true
         | c2 :: u => if c2 = '+' then specIdentSeq u else false)
    else if c = '+' then specIdentSeq t
    else false

/-- The spec's §4.1 grammar as an executable recognizer (the strict
reading in which suffix identifiers are non-empty). -/
def specSemver (s : String) : Bool :=
  let l := dropLeadV s.data
  let d1 := l.takeWhile Char.isDigit
  match l.dropWhile Char.isDigit with
  | [] => false
  | c1 :: r1 =>
    if c1 = '.' then
      let d2 := r1.takeWhile Char.isDigit
      match r1.dropWhile Char.isDigit with
      | [] => false
      | c2 :: r2 =>
        if c2 = '.' then
          let d3 := r2.takeWhile Char.isDigit
          !d1.isEmpty && !d2.isEmpty && !d3.isEmpty &&
            specMatchSuffix (r2.dropWhile Char.isDigit)
        else false
    else false

/-- A non-empty digit run. -/
def DigitsRun (l : List Char) : Prop :=
  l ≠ [] ∧ ∀ c ∈ l, c.isDigit = true

/-- A non-empty run over the suffix class alphanumeric/dot/hyphen. -/
def IdentRun (l : List Char) : Prop :=
  l ≠ [] ∧ ∀ c ∈ l, isIdentChar c = true

/-- The relaxed grammar: optional `v`, three dot-separated digit runs, an
optional `-`-led and an optional `+`-led non-empty run over the class
alphanumeric/dot/hyphen.  This is the language of the regex in
`is_semver_tag`, stated as a decomposition of the string. -/
def RelaxedSemver (s : String) : Prop :=
  ∃ ov m1 m2 m3 preSeg bldSeg : List Char,
    (ov = [] ∨ ov = ['v']) ∧ DigitsRun m1 ∧ DigitsRun m2 ∧ DigitsRun m3 ∧
    (preSeg = [] ∨ ∃ p, IdentRun p ∧ preSeg = '-' :: p) ∧
    (bldSeg = [] ∨ ∃ b, IdentRun b ∧ bldSeg = '+' :: b) ∧
    s.data = ov ++ (m1 ++ '.' :: (m2 ++ '.' :: (m3 ++ (preSeg ++ bldSeg))))


/-! ## Helper lemmas -/

lemma run_split_cons (p : Char → Bool) (l1 : List Char) (c : Char) (t : List Char)
    (h1 : ∀ x ∈ l1, p x = true) (h2 : p c = false) :
    (l1 ++ c :: t).takeWhile p = l1 ∧ (l1 ++ c :: t).dropWhile p = c :: t := by
  constructor
  · rw [List.takeWhile_append_of_pos h1, List.takeWhile_cons_of_neg (by simp [h2]),
      List.append_nil]
  · rw [List.dropWhile_append_of_pos h1, List.dropWhile_cons_of_neg (by simp [h2])]

lemma run_split_nil (p : Char → Bool) (l1 : List Char) (h1 : ∀ x ∈ l1, p x = true) :
    l1.takeWhile p = l1 ∧ l1.dropWhile p = [] := by
  constructor
  · induction l1 with
    | nil => rfl
    | cons x xs ih =>
      rw [List.takeWhile_cons_of_pos (h1 x (by simp))]
      rw [ih (fun y hy => h1 y (by simp [hy]))]
  · induction l1 with
    | nil => rfl
    | cons x xs ih =>
      rw [List.dropWhile_cons_of_pos (h1 x (by simp))]
      exact ih (fun y hy => h1 y (by simp [hy]))

lemma ne_nil_isEmpty {l : List Char} (h : l ≠ []) : l.isEmpty = false := by
  cases l with
  | nil => exact absurd rfl h
  | cons a t => rfl

lemma isEmpty_false_ne_nil {l : List Char} (h : l.isEmpty = false) : l ≠ [] := by
  cases l with
  | nil => simp at h
  | cons a t => simp

lemma identRun_all {l : List Char} (h : IdentRun l) : l.all isIdentChar = true := by
  rw [List.all_eq_true]
  exact fun c hc => h.2 c hc

lemma digitsRun_ne_v {m : List Char} (h : DigitsRun m) :
    ∃ c t, m = c :: t ∧ ¬c = 'v' := by
  obtain ⟨c, t, rfl⟩ := List.exists_cons_of_ne_nil h.1
  refine ⟨c, t, rfl, ?_⟩
  intro hc
  have hd := h.2 c (by simp)
  rw [hc] at hd
  exact absurd hd (by decide)

lemma takeWhile_identRun {l : List Char} (h : (l.takeWhile isIdentChar).isEmpty = false) :
    IdentRun (l.takeWhile isIdentChar) :=
  ⟨isEmpty_false_ne_nil h, fun _ hc => List.mem_takeWhile_imp hc⟩

lemma semverCore_decomp (m1 m2 m3 suffix : List Char)
    (h1 : DigitsRun m1) (h2 : DigitsRun m2) (h3 : DigitsRun m3)
    (hs : ∀ c t, suffix = c :: t → c.isDigit = false) :
    semverCore (m1 ++ '.' :: (m2 ++ '.' :: (m3 ++ suffix))) = matchSuffix suffix := by
  obtain ⟨tw1, dw1⟩ :=
    run_split_cons Char.isDigit m1 '.' (m2 ++ '.' :: (m3 ++ suffix)) h1.2 (by decide)
  obtain ⟨tw2, dw2⟩ := run_split_cons Char.isDigit m2 '.' (m3 ++ suffix) h2.2 (by decide)
  have e1 := ne_nil_isEmpty h1.1
  have e2 := ne_nil_isEmpty h2.1
  have e3 := ne_nil_isEmpty h3.1
  cases suffix with
  | nil =>
    obtain ⟨tw3, dw3⟩ := run_split_nil Char.isDigit m3 h3.2
    simp only [List.append_nil] at tw1 dw1 tw2 dw2 ⊢
    simp only [semverCore, tw1, dw1, tw2, dw2, tw3, dw3, if_true, e1, e2, e3]
    rfl
  | cons c t =>
    obtain ⟨tw3, dw3⟩ := run_split_cons Char.isDigit m3 c t h3.2 (hs c t rfl)
    simp only [semverCore, tw1, dw1, tw2, dw2, tw3, dw3, if_true, e1, e2, e3]
    rfl

lemma matchSuffix_complete (preSeg bldSeg : List Char)
    (hp : preSeg = [] ∨ ∃ p, IdentRun p ∧ preSeg = '-' :: p)
    (hb : bldSeg = [] ∨ ∃ b, IdentRun b ∧ bldSeg = '+' :: b) :
    matchSuffix (preSeg ++ bldSeg) = true := by
  rcases hp with rfl | ⟨p, hpr, rfl⟩
  · rcases hb with rfl | ⟨b, hbr, rfl⟩
    · rfl
    · simp only [List.nil_append, matchSuffix]
      rw [if_neg (by decide)]
      simp only [if_true]
      simp [identRun_all hbr, List.isEmpty_iff, hbr.1]
  · rcases hb with rfl | ⟨b, hbr, rfl⟩
    · simp only [List.append_nil, List.cons_append, matchSuffix]
      simp only [if_true]
      obtain ⟨htw, hdw⟩ := run_split_nil isIdentChar p (fun x hx => hpr.2 x hx)
      simp only [List.append_nil, htw, hdw]
      simp [List.isEmpty_iff, hpr.1]
    · simp only [List.cons_append, matchSuffix]
      simp only [if_true]
      obtain ⟨htw, hdw⟩ := run_split_cons isIdentChar p '+' b (fun x hx => hpr.2 x hx) (by decide)
      simp only [htw, hdw]
      simp only [if_true]
      simp [List.isEmpty_iff, hpr.1, hbr.1, identRun_all hbr]

lemma matchSuffix_sound (suffix : List Char) (h : matchSuffix suffix = true) :
    ∃ preSeg bldSeg, suffix = preSeg ++ bldSeg ∧
      (preSeg = [] ∨ ∃ p, IdentRun p ∧ preSeg = '-' :: p) ∧
      (bldSeg = [] ∨ ∃ b, IdentRun b ∧ bldSeg = '+' :: b) := by
  cases suffix with
  | nil => exact ⟨[], [], rfl, Or.inl rfl, Or.inl rfl⟩
  | cons c t =>
    simp only [matchSuffix] at h
    by_cases hc : c = '-'
    · rw [if_pos hc, Bool.and_eq_true] at h
      subst hc
      obtain ⟨hne, hrest⟩ := h
      rw [Bool.not_eq_true'] at hne
      have hpre := takeWhile_identRun hne
      split at hrest
      · rename_i hdw
        have ht : t = List.takeWhile isIdentChar t := by
          conv_lhs => rw [← List.takeWhile_append_dropWhile isIdentChar t, hdw,
            List.append_nil]
        exact ⟨'-' :: List.takeWhile isIdentChar t, [],
          by rw [List.append_nil, ← ht], Or.inr ⟨_, hpre, rfl⟩, Or.inl rfl⟩
      · rename_i c2 u hdw
        split at hrest
        · rename_i hc2
          subst hc2
          rw [Bool.and_eq_true] at hrest
          obtain ⟨hu, hall⟩ := hrest
          rw [Bool.not_eq_true'] at hu
          have ht : t = List.takeWhile isIdentChar t ++ '+' :: u := by
            conv_lhs => rw [← List.takeWhile_append_dropWhile isIdentChar t, hdw]
          refine ⟨'-' :: List.takeWhile isIdentChar t, '+' :: u, ?_,
            Or.inr ⟨_, hpre, rfl⟩,
            Or.inr ⟨u, ⟨isEmpty_false_ne_nil hu,
              fun x hx => List.all_eq_true.mp hall x hx⟩, rfl⟩⟩
          rw [List.cons_append, ← ht]
        · simp at hrest
    · rw [if_neg hc] at h
      by_cases hc2 : c = '+'
      · rw [if_pos hc2, Bool.and_eq_true] at h
        subst hc2
        obtain ⟨hne, hall⟩ := h
        rw [Bool.not_eq_true'] at hne
        exact ⟨[], '+' :: t, rfl, Or.inl rfl,
          Or.inr ⟨t, ⟨isEmpty_false_ne_nil hne,
            fun x hx => List.all_eq_true.mp hall x hx⟩, rfl⟩⟩
      · rw [if_neg hc2] at h
        simp at h

lemma semverCore_sound (l : List Char) (h : semverCore l = true) :
    ∃ m1 m2 m3 suffix, l = m1 ++ '.' :: (m2 ++ '.' :: (m3 ++ suffix)) ∧
      DigitsRun m1 ∧ DigitsRun m2 ∧ DigitsRun m3 ∧ matchSuffix suffix = true := by
  simp only [semverCore] at h
  split at h
  · simp at h
  · rename_i c1 r1 hdw1
    split at h
    · rename_i hc1
      subst hc1
      split at h
      · simp at h
      · rename_i c2 r2 hdw2
        split at h
        · rename_i hc2
          subst hc2
          simp only [Bool.and_eq_true, Bool.not_eq_true'] at h
          obtain ⟨⟨⟨e1, e2⟩, e3⟩, hms⟩ := h
          refine ⟨List.takeWhile Char.isDigit l, List.takeWhile Char.isDigit r1,
            List.takeWhile Char.isDigit r2, List.dropWhile Char.isDigit r2, ?_,
            ⟨isEmpty_false_ne_nil e1, fun c hc => List.mem_takeWhile_imp hc⟩,
            ⟨isEmpty_false_ne_nil e2, fun c hc => List.mem_takeWhile_imp hc⟩,
            ⟨isEmpty_false_ne_nil e3, fun c hc => List.mem_takeWhile_imp hc⟩, hms⟩
          rw [List.takeWhile_append_dropWhile, ← hdw2, List.takeWhile_append_dropWhile,
            ← hdw1, List.takeWhile_append_dropWhile]
        · simp at h
    · simp at h

lemma is_semver_tag_sound (s : String) (h : is_semver_tag s = true) : RelaxedSemver s := by
  rw [is_semver_tag] at h
  rcases hdata : s.data with _ | ⟨c, t⟩ <;> rw [hdata] at h
  · simp [dropLeadV, semverCore] at h
  · by_cases hcv : c = 'v'
    · subst hcv
      simp only [dropLeadV, if_true] at h
      obtain ⟨m1, m2, m3, suffix, heq, h1, h2, h3, hms⟩ := semverCore_sound t h
      obtain ⟨preSeg, bldSeg, hsuf, hp, hb⟩ := matchSuffix_sound suffix hms
      refine ⟨['v'], m1, m2, m3, preSeg, bldSeg, Or.inr rfl, h1, h2, h3, hp, hb, ?_⟩
      rw [hdata, heq, hsuf]
      simp
    · simp only [dropLeadV, if_neg hcv] at h
      obtain ⟨m1, m2, m3, suffix, heq, h1, h2, h3, hms⟩ := semverCore_sound (c :: t) h
      obtain ⟨preSeg, bldSeg, hsuf, hp, hb⟩ := matchSuffix_sound suffix hms
      refine ⟨[], m1, m2, m3, preSeg, bldSeg, Or.inl rfl, h1, h2, h3, hp, hb, ?_⟩
      rw [hdata, heq, hsuf]
      simp

lemma is_semver_tag_complete (s : String) (h : RelaxedSemver s) : is_semver_tag s = true := by
  obtain ⟨ov, m1, m2, m3, preSeg, bldSeg, hov, h1, h2, h3, hp, hb, hdata⟩ := h
  have hsuffix : ∀ c t, preSeg ++ bldSeg = c :: t → c.isDigit = false := by
    intro c t hct
    rcases hp with rfl | ⟨p, hpr, rfl⟩
    · rcases hb with rfl | ⟨b, hbr, rfl⟩
      · exact absurd hct (by simp)
      · rw [List.nil_append] at hct
        injection hct with hc ht
        rw [← hc]
        decide
    · rw [List.cons_append] at hct
      injection hct with hc ht
      rw [← hc]
      decide
  rw [is_semver_tag, hdata]
  rcases hov with rfl | rfl
  · rw [List.nil_append]
    obtain ⟨c, t0, rfl, hcv⟩ := digitsRun_ne_v h1
    rw [List.cons_append]
    simp only [dropLeadV, if_neg hcv]
    rw [← List.cons_append, semverCore_decomp _ _ _ _ h1 h2 h3 hsuffix]
    exact matchSuffix_complete _ _ hp hb
  · rw [List.singleton_append]
    simp only [dropLeadV, if_true]
    rw [semverCore_decomp _ _ _ _ h1 h2 h3 hsuffix]
    exact matchSuffix_complete _ _ hp hb

lemma hasTagNs_heads (b : String) : hasTagNs ("refs/heads/" ++ b) = false := rfl

lemma stripHeadsNs_heads (b : String) : stripHeadsNs ("refs/heads/" ++ b) = b := rfl

lemma detect_snd_of_ne_release (env : GitHubEnv)
    (h : (detectFlowType env).1 ≠ "release") :
    (detectFlowType env).2 = get_short_sha env.sha := by
  simp only [detectFlowType] at h ⊢
  split_ifs at h ⊢ <;> simp_all

/-! ## Claim theorems -/

/-- C1: classification follows the strict precedence order, first match
wins: a push event whose full ref begins with `refs/tags/` is decided by
the tag rule — `release` when the tag name is a semantic version, `wip`
otherwise — and never by the branch-push rules; and whenever one of the
three release-tag rules (release event, tag-creation event, tag push)
fires with a tag that is not a valid semantic version, the category is
`wip`, not an error. -/
theorem C1_tag_rule_first :
    (∀ env : GitHubEnv, env.eventName = "push" → hasTagNs env.ref = true →
      (detectFlowType env).1 =
        (if is_semver_tag (stripTagNs env.ref) then "release" else "wip")) ∧
    (∀ env : GitHubEnv, env.eventName = "release" →
      is_semver_tag (stripTagNs env.ref) = false → (detectFlowType env).1 = "wip") ∧
    (∀ env : GitHubEnv, env.eventName = "create" → env.refType = "tag" →
      is_semver_tag env.refName = false → (detectFlowType env).1 = "wip") := by
  refine ⟨?_, ?_, ?_⟩
  · intro env he ht
    simp only [detectFlowType, he, ht]
    simp only [String.reduceEq, if_false, iff_true, and_true, and_self, if_true,
      reduceIte, false_and, true_and]
    cases hs : is_semver_tag (stripTagNs env.ref) <;> simp [hs]
  · intro env he hs
    simp only [detectFlowType, he, hs]
    simp
  · intro env he hr hs
    simp only [detectFlowType, he, hr, hs]
    simp

/-- Witness for C1: a push of the non-semver tag `refs/tags/foo` — an
event that also has the shape of a branch push — classifies as `wip`
through the tag rule. -/
theorem C1_tag_rule_first_witness :
    (let env : GitHubEnv :=
      { eventName := "push", ref := "refs/tags/foo", refType := "tag", refName := "foo",
        sha := "0123456789abcdef", headRef := "", baseRef := "", mainBranch := "main",
        devBranch := "dev", tagPre := "", tagSuf := "" }
     env.eventName = "push" ∧ hasTagNs env.ref = true ∧ (detectFlowType env).1 = "wip") := by
  refine ⟨rfl, rfl, ?_⟩
  have h := C1_tag_rule_first.1
    { eventName := "push", ref := "refs/tags/foo", refType := "tag", refName := "foo",
      sha := "0123456789abcdef", headRef := "", baseRef := "", mainBranch := "main",
      devBranch := "dev", tagPre := "", tagSuf := "" } rfl rfl
  simpa using h

/-- C2 counterexample: the claim that `is_semver_tag` agrees with the
spec's §4.1 grammar on every string fails at `"v1.2.3-."` — the script's
regex accepts it (its suffix character class admits a bare separator),
while the grammar's pre-release suffix must consist of dot/hyphen-separated
non-empty alphanumeric identifiers. -/
theorem C2_grammar_counterexample :
    is_semver_tag "v1.2.3-." = true ∧ specSemver "v1.2.3-." = false := by
  constructor
  · decide
  · decide

/-- C2 (amended): `is_semver_tag` accepts exactly the strings with an
optional leading `v`, three dot-separated non-negative integers, an
optional pre-release suffix (`-` followed by a non-empty run over the
class alphanumeric/dot/hyphen) and an optional build-metadata suffix
(`+` followed by a non-empty run over the same class); in particular it
accepts `"v1.2.3"`, `"1.2.3"`, `"v2.0.0-beta.1"`, `"v1.0.0+20241213"`
and rejects `"abc"` and `"1.2"`. -/
theorem C2_semver_recognizer :
    (∀ v : String, is_semver_tag v = true ↔ RelaxedSemver v) ∧
    is_semver_tag "v1.2.3" = true ∧ is_semver_tag "1.2.3" = true ∧
    is_semver_tag "v2.0.0-beta.1" = true ∧ is_semver_tag "v1.0.0+20241213" = true ∧
    is_semver_tag "abc" = false ∧ is_semver_tag "1.2" = false := by
  refine ⟨fun v => ⟨is_semver_tag_sound v, is_semver_tag_complete v⟩,
    by decide, by decide, by decide, by decide, by decide, by decide⟩

/-- Witness for C2 (amended): the equivalence instantiated at
`"v2.0.0-beta.1"` produces its grammar decomposition. -/
theorem C2_semver_recognizer_witness : RelaxedSemver "v2.0.0-beta.1" :=
  (C2_semver_recognizer.1 "v2.0.0-beta.1").mp (by decide)

/-- C4: a pull-request-like event is classified from its base (target)
and head (source) branches against the configured dev/main branches —
`pr` when the target is the dev branch, `dev` when the target is main and
the source is dev, `patch` when the target is main otherwise, `wip` in
every other case; a push to a branch ref is classified `dev` on the dev
branch, `staging` on the main branch and `wip` elsewhere. -/
theorem C4_pr_and_branch_rules :
    (∀ env : GitHubEnv,
      env.eventName = "pull_request" ∨ env.eventName = "pull_request_target" →
      (detectFlowType env).1 =
        (if env.baseRef = env.devBranch then "pr"
         else if env.baseRef = env.mainBranch ∧ env.headRef = env.devBranch then "dev"
         else if env.baseRef = env.mainBranch then "patch"
         else "wip")) ∧
    (∀ (env : GitHubEnv) (b : String), env.eventName = "push" →
      env.ref = "refs/heads/" ++ b →
      (detectFlowType env).1 =
        (if b = env.devBranch then "dev"
         else if b = env.mainBranch then "staging"
         else "wip")) := by
  constructor
  · intro env he
    rcases he with he | he <;>
    · simp only [detectFlowType, he]
      simp only [String.reduceEq, false_and, if_false, reduceIte, false_or, or_false,
        true_or]
      split_ifs <;> simp_all
  · intro env b he hr
    simp only [detectFlowType, he, hr, hasTagNs_heads, stripHeadsNs_heads]
    simp only [String.reduceEq, false_and, and_false, if_false, reduceIte, or_self,
      false_or]
    split_ifs <;> simp_all

/-- Witness for C4: a pull request from `feature` into `main` on the
default configuration classifies as `patch`. -/
theorem C4_pr_and_branch_rules_witness :
    (let env : GitHubEnv :=
      { eventName := "pull_request", ref := "refs/pull/7/merge", refType := "branch",
        refName := "7/merge", sha := "abc", headRef := "feature", baseRef := "main",
        mainBranch := "main", devBranch := "dev", tagPre := "", tagSuf := "" }
     (env.eventName = "pull_request" ∨ env.eventName = "pull_request_target") ∧
       (detectFlowType env).1 = "patch") := by
  refine ⟨Or.inl rfl, ?_⟩
  have h := C4_pr_and_branch_rules.1
    { eventName := "pull_request", ref := "refs/pull/7/merge", refType := "branch",
      refName := "7/merge", sha := "abc", headRef := "feature", baseRef := "main",
      mainBranch := "main", devBranch := "dev", tagPre := "", tagSuf := "" }
    (Or.inl rfl)
  simpa using h

/-- C5: for a non-release classification the base tag is the category
name, a hyphen, and the first seven characters of the commit SHA (all of
it when shorter, with no padding and no error), and the emitted tag is
that base wrapped with the configured prefix and suffix. -/
theorem C5_short_sha_tag :
    (∀ env : GitHubEnv, (detectFlowType env).1 ≠ "release" →
      (generateTags env).2 =
        [env.tagPre ++ ((detectFlowType env).1 ++ "-" ++ get_short_sha env.sha) ++
          env.tagSuf]) ∧
    (∀ sha : String, (get_short_sha sha).data = sha.data.take 7) ∧
    (∀ sha : String, sha.data.length ≤ 7 → get_short_sha sha = sha) := by
  refine ⟨?_, fun sha => rfl, ?_⟩
  · intro env h
    have h2 := detect_snd_of_ne_release env h
    simp only [generateTags, if_neg h, h2]
  · intro sha hlen
    simp only [get_short_sha, List.take_of_length_le hlen]

/-- Witness for C5: a push to a feature branch with a three-character SHA
uses the whole SHA. -/
theorem C5_short_sha_tag_witness :
    (let env : GitHubEnv :=
      { eventName := "push", ref := "refs/heads/feature", refType := "branch",
        refName := "feature", sha := "abc", headRef := "", baseRef := "",
        mainBranch := "main", devBranch := "dev", tagPre := "p-", tagSuf := "-s" }
     (detectFlowType env).1 ≠ "release" ∧ (generateTags env).2 = ["p-wip-abc-s"] ∧
       "abc".data.length ≤ 7 ∧ get_short_sha "abc" = "abc") := by
  refine ⟨by decide, ?_, by decide, C5_short_sha_tag.2.2 "abc" (by decide)⟩
  have h := C5_short_sha_tag.1
    { eventName := "push", ref := "refs/heads/feature", refType := "branch",
      refName := "feature", sha := "abc", headRef := "", baseRef := "",
      mainBranch := "main", devBranch := "dev", tagPre := "p-", tagSuf := "-s" }
    (by decide)
  simpa using h


lemma semver_head (r : String) (h : is_semver_tag r = true) :
    ∃ c t, r.data = c :: t ∧ (c = 'v' ∨ c.isDigit = true) := by
  rw [is_semver_tag] at h
  rcases hd : r.data with _ | ⟨c, t⟩ <;> rw [hd] at h
  · simp [dropLeadV, semverCore] at h
  · by_cases hc : c = 'v'
    · exact ⟨c, t, rfl, Or.inl hc⟩
    · simp only [dropLeadV, if_neg hc] at h
      obtain ⟨m1, m2, m3, suffix, heq, h1, h2, h3, -⟩ := semverCore_sound _ h
      obtain ⟨c1, t1, he1⟩ := List.exists_cons_of_ne_nil h1.1
      refine ⟨c, t, rfl, Or.inr ?_⟩
      rw [he1, List.cons_append] at heq
      injection heq with hc1 hrest
      rw [hc1]
      exact h1.2 c1 (by rw [he1]; simp)

lemma semver_not_tagNs (r : String) (h : is_semver_tag r = true) : stripTagNs r = r := by
  obtain ⟨c, t, hd, hc⟩ := semver_head r h
  have hcr : ¬c = 'r' := by
    rcases hc with rfl | hdig
    · decide
    · intro hr
      rw [hr] at hdig
      exact absurd hdig (by decide)
  simp [stripTagNs, hd, tagNsChars, dropLit, hcr]

lemma extract_semver_of_semver (r : String) (h : is_semver_tag r = true) :
    extract_semver r = some r := by
  simp only [extract_semver, semver_not_tagNs r h, if_pos h]

lemma detect_fst_release (env : GitHubEnv) (h : (detectFlowType env).1 = "release") :
    is_semver_tag (detectFlowType env).2 = true := by
  simp only [detectFlowType] at h ⊢
  split_ifs at h ⊢ <;> simp_all [extract_semver_of_semver]

lemma suffix_head_not_digit (preSeg bldSeg : List Char)
    (hp : preSeg = [] ∨ ∃ p, IdentRun p ∧ preSeg = '-' :: p)
    (hb : bldSeg = [] ∨ ∃ b, IdentRun b ∧ bldSeg = '+' :: b) :
    ∀ c t, preSeg ++ bldSeg = c :: t → c.isDigit = false := by
  intro c t hct
  rcases hp with rfl | ⟨p, hpr, rfl⟩
  · rcases hb with rfl | ⟨b, hbr, rfl⟩
    · exact absurd hct (by simp)
    · rw [List.nil_append] at hct
      injection hct with hc ht
      rw [← hc]
      decide
  · rw [List.cons_append] at hct
    injection hct with hc ht
    rw [← hc]
    decide

lemma extractMajorMinor_decomp (m1 m2 m3 suffix : List Char)
    (h1 : DigitsRun m1) (h2 : DigitsRun m2) (h3 : DigitsRun m3)
    (hs : ∀ c t, suffix = c :: t → c.isDigit = false) :
    extractMajorMinor (String.mk (m1 ++ '.' :: (m2 ++ '.' :: (m3 ++ suffix)))) =
      some (String.mk m1, String.mk m2) := by
  obtain ⟨tw1, dw1⟩ :=
    run_split_cons Char.isDigit m1 '.' (m2 ++ '.' :: (m3 ++ suffix)) h1.2 (by decide)
  obtain ⟨tw2, dw2⟩ := run_split_cons Char.isDigit m2 '.' (m3 ++ suffix) h2.2 (by decide)
  have e1 := ne_nil_isEmpty h1.1
  have e2 := ne_nil_isEmpty h2.1
  have e3 := ne_nil_isEmpty h3.1
  cases suffix with
  | nil =>
    obtain ⟨tw3, dw3⟩ := run_split_nil Char.isDigit m3 h3.2
    simp only [List.append_nil] at tw1 dw1 tw2 dw2 ⊢
    simp only [extractMajorMinor, tw1, dw1, tw2, dw2, tw3, dw3, if_true, e1, e2, e3]
    simp
  | cons c t =>
    obtain ⟨tw3, dw3⟩ := run_split_cons Char.isDigit m3 c t h3.2 (hs c t rfl)
    simp only [extractMajorMinor, tw1, dw1, tw2, dw2, tw3, dw3, if_true, e1, e2, e3]
    simp

lemma isPrereleaseCheck_decomp (m1 m2 m3 suffix : List Char)
    (h1 : DigitsRun m1) (h2 : DigitsRun m2) (h3 : DigitsRun m3)
    (hs : ∀ c t, suffix = c :: t → c.isDigit = false) :
    isPrereleaseCheck (String.mk (m1 ++ '.' :: (m2 ++ '.' :: (m3 ++ suffix)))) =
      preReleaseShape suffix := by
  obtain ⟨tw1, dw1⟩ :=
    run_split_cons Char.isDigit m1 '.' (m2 ++ '.' :: (m3 ++ suffix)) h1.2 (by decide)
  obtain ⟨tw2, dw2⟩ := run_split_cons Char.isDigit m2 '.' (m3 ++ suffix) h2.2 (by decide)
  have e1 := ne_nil_isEmpty h1.1
  have e2 := ne_nil_isEmpty h2.1
  have e3 := ne_nil_isEmpty h3.1
  cases suffix with
  | nil =>
    obtain ⟨tw3, dw3⟩ := run_split_nil Char.isDigit m3 h3.2
    simp only [List.append_nil] at tw1 dw1 tw2 dw2 ⊢
    simp only [isPrereleaseCheck, tw1, dw1, tw2, dw2, tw3, dw3, if_true, e1, e2, e3]
    rfl
  | cons c3 r3 =>
    obtain ⟨tw3, dw3⟩ := run_split_cons Char.isDigit m3 c3 r3 h3.2 (hs c3 r3 rfl)
    simp only [isPrereleaseCheck, tw1, dw1, tw2, dw2, tw3, dw3, if_true, e1, e2, e3]
    cases r3 with
    | nil => simp [preReleaseShape]
    | cons c4 r4 => simp [preReleaseShape]

lemma isPrereleaseCheck_iff_semver (v : String) (h : is_semver_tag v = true) :
    (isPrereleaseCheck (String.mk (dropLeadV v.data)) = true ↔
      ∃ m1 m2 m3 p bldSeg, DigitsRun m1 ∧ DigitsRun m2 ∧ DigitsRun m3 ∧ IdentRun p ∧
        (bldSeg = [] ∨ ∃ b, IdentRun b ∧ bldSeg = '+' :: b) ∧
        dropLeadV v.data = m1 ++ '.' :: (m2 ++ '.' :: (m3 ++ ('-' :: p ++ bldSeg)))) := by
  rw [is_semver_tag] at h
  obtain ⟨m1, m2, m3, suffix, heq, h1, h2, h3, hms⟩ := semverCore_sound _ h
  obtain ⟨preSeg, bldSeg, hsuf, hp, hb⟩ := matchSuffix_sound suffix hms
  have hs := suffix_head_not_digit preSeg bldSeg hp hb
  rw [hsuf] at heq
  constructor
  · intro hpre
    rw [heq, isPrereleaseCheck_decomp m1 m2 m3 (preSeg ++ bldSeg) h1 h2 h3 hs] at hpre
    rcases hp with rfl | ⟨p, hpr, rfl⟩
    · exfalso
      rcases hb with rfl | ⟨b, hbr, rfl⟩
      · simp [preReleaseShape] at hpre
      · rw [List.nil_append] at hpre
        cases b with
        | nil => simp [preReleaseShape] at hpre
        | cons c4 r4 => simp [preReleaseShape] at hpre
    · exact ⟨m1, m2, m3, p, bldSeg, h1, h2, h3, hpr, hb, heq⟩
  · rintro ⟨n1, n2, n3, p, bld, g1, g2, g3, gpr, gb, geq⟩
    have gs : ∀ c t, ('-' :: p ++ bld) = c :: t → c.isDigit = false := by
      intro c t hct
      rw [List.cons_append] at hct
      injection hct with hc ht
      rw [← hc]
      decide
    rw [geq, isPrereleaseCheck_decomp n1 n2 n3 ('-' :: p ++ bld) g1 g2 g3 gs]
    obtain ⟨c4, p4, rfl⟩ := List.exists_cons_of_ne_nil gpr.1
    simp only [List.cons_append]
    simp [preReleaseShape, gpr.2 c4 (by simp)]

/-- C3: for every release-classified event the base identifier is the
matched version with every `+` replaced by `-`; a pre-release version
yields exactly the exact-version tag, a stable version yields exactly the
exact version, `{major}.{minor}` and `latest` in that order, each wrapped
as `{prefix}{base}{suffix}`; the pre-release test holds for a semantic
version exactly when a `-`-led identifier run follows directly after the
patch number (before any build metadata); and the three concrete examples
of the claim hold. -/
theorem C3_release_tag_derivation :
    (∀ env : GitHubEnv, (detectFlowType env).1 = "release" →
      is_semver_tag (detectFlowType env).2 = true ∧
      (isPrereleaseCheck (String.mk (dropLeadV (detectFlowType env).2.data)) = true →
        (generateTags env).2 =
          [env.tagPre ++ sanitize_docker_tag (detectFlowType env).2 ++ env.tagSuf]) ∧
      (isPrereleaseCheck (String.mk (dropLeadV (detectFlowType env).2.data)) = false →
        ∃ major minor,
          extractMajorMinor (String.mk (dropLeadV (detectFlowType env).2.data)) =
            some (major, minor) ∧
          (generateTags env).2 =
            [env.tagPre ++ sanitize_docker_tag (detectFlowType env).2 ++ env.tagSuf,
             env.tagPre ++ major ++ "." ++ minor ++ env.tagSuf,
             env.tagPre ++ "latest" ++ env.tagSuf])) ∧
    (∀ v : String, is_semver_tag v = true →
      (isPrereleaseCheck (String.mk (dropLeadV v.data)) = true ↔
        ∃ m1 m2 m3 p bldSeg, DigitsRun m1 ∧ DigitsRun m2 ∧ DigitsRun m3 ∧ IdentRun p ∧
          (bldSeg = [] ∨ ∃ b, IdentRun b ∧ bldSeg = '+' :: b) ∧
          dropLeadV v.data = m1 ++ '.' :: (m2 ++ '.' :: (m3 ++ ('-' :: p ++ bldSeg))))) ∧
    generateTags
      { eventName := "push", ref := "refs/tags/v1.2.3", refType := "tag",
        refName := "v1.2.3", sha := "0123456789abcdef", headRef := "", baseRef := "",
        mainBranch := "main", devBranch := "dev", tagPre := "", tagSuf := "" } =
      ("release", ["v1.2.3", "1.2", "latest"]) ∧
    generateTags
      { eventName := "push", ref := "refs/tags/v2.0.0-beta.1", refType := "tag",
        refName := "v2.0.0-beta.1", sha := "0123456789abcdef", headRef := "",
        baseRef := "", mainBranch := "main", devBranch := "dev", tagPre := "",
        tagSuf := "" } =
      ("release", ["v2.0.0-beta.1"]) ∧
    generateTags
      { eventName := "push", ref := "refs/tags/v1.0.0+20241213", refType := "tag",
        refName := "v1.0.0+20241213", sha := "0123456789abcdef", headRef := "",
        baseRef := "", mainBranch := "main", devBranch := "dev", tagPre := "",
        tagSuf := "" } =
      ("release", ["v1.0.0-20241213", "1.0", "latest"]) := by
  refine ⟨?_, fun v hv => isPrereleaseCheck_iff_semver v hv, by decide, by decide, by decide⟩
  intro env h
  have hsem := detect_fst_release env h
  refine ⟨hsem, ?_, ?_⟩
  · intro hpre
    simp only [generateTags]
    rw [if_pos h, if_pos hpre]
  · intro hpre
    have hsem2 := hsem
    rw [is_semver_tag] at hsem2
    obtain ⟨m1, m2, m3, suffix, heq, h1, h2, h3, hms⟩ := semverCore_sound _ hsem2
    obtain ⟨preSeg, bldSeg, hsuf, hp, hb⟩ := matchSuffix_sound suffix hms
    have hsd := suffix_head_not_digit preSeg bldSeg hp hb
    rw [hsuf] at heq
    have hx : extractMajorMinor (String.mk (dropLeadV (detectFlowType env).2.data)) =
        some (String.mk m1, String.mk m2) := by
      rw [heq]
      exact extractMajorMinor_decomp m1 m2 m3 (preSeg ++ bldSeg) h1 h2 h3 hsd
    refine ⟨String.mk m1, String.mk m2, hx, ?_⟩
    simp only [generateTags]
    rw [if_pos h, if_neg (by simp [hpre]), hx]

/-- Witness for C3: a push of the pre-release tag `v9.0.1-rc.1` produces
exactly the exact-version tag. -/
theorem C3_release_tag_derivation_witness :
    (let env : GitHubEnv :=
      { eventName := "push", ref := "refs/tags/v9.0.1-rc.1", refType := "tag",
        refName := "v9.0.1-rc.1", sha := "0123456789", headRef := "", baseRef := "",
        mainBranch := "main", devBranch := "dev", tagPre := "", tagSuf := "" }
     (detectFlowType env).1 = "release" ∧
       isPrereleaseCheck (String.mk (dropLeadV (detectFlowType env).2.data)) = true ∧
       (generateTags env).2 = ["v9.0.1-rc.1"]) := by
  refine ⟨by decide, by decide, ?_⟩
  have h := ((C3_release_tag_derivation.1
    { eventName := "push", ref := "refs/tags/v9.0.1-rc.1", refType := "tag",
      refName := "v9.0.1-rc.1", sha := "0123456789", headRef := "", baseRef := "",
      mainBranch := "main", devBranch := "dev", tagPre := "", tagSuf := "" }
    (by decide)).2.1) (by decide)
  simpa using h


lemma char_toNat_ofNat (n : Nat) (hv : n.isValidChar) : (Char.ofNat n).toNat = n := by
  rw [Char.ofNat, dif_pos hv]
  rfl

lemma char_toLower_toUpper_of_lower (c : Char)
    (h : 97 ≤ c.toNat ∧ c.toNat ≤ 122) : (Char.toUpper c).toLower = c := by
  have hv : (c.toNat - 32).isValidChar := Or.inl (by omega)
  simp only [Char.toUpper, ge_iff_le, if_pos h]
  have ht : (Char.ofNat (c.toNat - 32)).toNat = c.toNat - 32 := char_toNat_ofNat _ hv
  simp only [Char.toLower, ge_iff_le, ht, if_pos (by omega : 65 ≤ c.toNat - 32 ∧ c.toNat - 32 ≤ 90)]
  have : c.toNat - 32 + 32 = c.toNat := by omega
  rw [this, Char.ofNat_toNat]

lemma char_ulu (c : Char) : ((Char.toUpper c).toLower).toUpper = Char.toUpper c := by
  by_cases h : 97 ≤ c.toNat ∧ c.toNat ≤ 122
  · rw [char_toLower_toUpper_of_lower c h]
  · have hup : Char.toUpper c = c := by
      simp only [Char.toUpper, ge_iff_le]
      rw [if_neg (by omega)]
    rw [hup]
    by_cases h2 : 65 ≤ c.toNat ∧ c.toNat ≤ 90
    · have hv : (c.toNat + 32).isValidChar := Or.inl (by omega)
      simp only [Char.toLower, ge_iff_le, if_pos h2]
      have ht : (Char.ofNat (c.toNat + 32)).toNat = c.toNat + 32 := char_toNat_ofNat _ hv
      simp only [Char.toUpper, ge_iff_le, ht,
        if_pos (by omega : 97 ≤ c.toNat + 32 ∧ c.toNat + 32 ≤ 122)]
      have : c.toNat + 32 - 32 = c.toNat := by omega
      rw [this, Char.ofNat_toNat]
    · have hlo : Char.toLower c = c := by
        simp only [Char.toLower, ge_iff_le]
        rw [if_neg (by omega)]
      rw [hlo, hup]

lemma jsUpper_lower_upper (s : String) :
    jsToUpper (jsToLower (jsToUpper s)) = jsToUpper s := by
  simp only [jsToUpper, jsToLower, List.map_map]
  congr 1
  exact List.map_congr_left (fun c _ => char_ulu c)

lemma lu_eq_iff (s lo up : String) (h1 : jsToUpper lo = up) (h2 : jsToLower up = lo) :
    jsToLower (jsToUpper s) = lo ↔ jsToUpper s = up := by
  constructor
  · intro h
    have h3 := congrArg jsToUpper h
    rw [jsUpper_lower_upper, h1] at h3
    exact h3
  · intro h
    rw [h, h2]

lemma hasKey_iff (m : VMap) (k : String) : hasKey m k = true ↔ k ∈ mapKeys m := by
  simp only [hasKey, mapKeys, List.any_eq_true, List.mem_map, beq_iff_eq]

lemma hasKey_false_iff (m : VMap) (k : String) :
    hasKey m k = false ↔ k ∉ mapKeys m := by
  rw [← hasKey_iff]
  cases hasKey m k <;> simp

lemma mapKeys_mapSet_has (m : VMap) (k : String) (v : ProcessedVulnerability)
    (h : hasKey m k = true) : mapKeys (mapSet m k v) = mapKeys m := by
  simp only [mapSet, if_pos h, mapKeys, List.map_map]
  apply List.map_congr_left
  intro p hp
  simp only [Function.comp_apply]
  by_cases hq : p.1 == k
  · rw [if_pos hq]
    simp only [beq_iff_eq] at hq
    exact hq.symm
  · rw [if_neg hq]

lemma mapKeys_mapSet_not (m : VMap) (k : String) (v : ProcessedVulnerability)
    (h : hasKey m k = false) : mapKeys (mapSet m k v) = mapKeys m ++ [k] := by
  simp only [mapSet, h, Bool.false_eq_true, if_false, mapKeys, List.map_append,
    List.map_cons, List.map_nil]

lemma mem_mapKeys_mapSet (m : VMap) (k : String) (v : ProcessedVulnerability)
    (k' : String) : k' ∈ mapKeys (mapSet m k v) ↔ k' ∈ mapKeys m ∨ k' = k := by
  cases h : hasKey m k
  · rw [mapKeys_mapSet_not m k v h]
    simp
  · rw [mapKeys_mapSet_has m k v h]
    constructor
    · exact Or.inl
    · rintro (hm | rfl)
      · exact hm
      · exact (hasKey_iff m k').mp h

lemma hasKey_append (m1 m2 : VMap) (k : String) :
    hasKey (m1 ++ m2) k = (hasKey m1 k || hasKey m2 k) := by
  simp [hasKey, List.any_append]

lemma mapSet_not_has (m : VMap) (k : String) (v : ProcessedVulnerability)
    (h : hasKey m k = false) : mapSet m k v = m ++ [(k, v)] := by
  simp [mapSet, h]

lemma nodup_mapKeys_mapSet (m : VMap) (k : String) (v : ProcessedVulnerability)
    (h : (mapKeys m).Nodup) : (mapKeys (mapSet m k v)).Nodup := by
  cases hk : hasKey m k
  · rw [mapKeys_mapSet_not m k v hk]
    rw [List.nodup_append]
    exact ⟨h, List.nodup_singleton k,
      by simp [List.Disjoint]; intro a ha hak; rw [hak] at ha
         exact absurd ha ((hasKey_false_iff m k).mp hk)⟩
  · rw [mapKeys_mapSet_has m k v hk]
    exact h

lemma find?_key_none (m : VMap) (k : String) (h : hasKey m k = false) :
    m.find? (fun p => p.1 == k) = none := by
  rw [List.find?_eq_none]
  simp only [hasKey, List.any_eq_false] at h
  exact h

lemma mapGet_map_replace_self (m : VMap) (k : String) (v : ProcessedVulnerability)
    (h : hasKey m k = true) :
    mapGet (m.map (fun p => if p.1 == k then (k, v) else p)) k = some v := by
  induction m with
  | nil => simp [hasKey] at h
  | cons q t ih =>
    simp only [List.map_cons]
    by_cases hq : q.1 == k
    · rw [if_pos hq]
      simp [mapGet, List.find?_cons]
    · rw [if_neg hq]
      have ht : hasKey t k = true := by
        simp only [hasKey, List.any_cons, hq, Bool.false_or] at h
        exact h
      simp only [mapGet, List.find?_cons, hq]
      exact ih ht

lemma mapGet_map_replace_other (m : VMap) (k : String) (v : ProcessedVulnerability)
    (k' : String) (h : ¬k' = k) :
    mapGet (m.map (fun p => if p.1 == k then (k, v) else p)) k' = mapGet m k' := by
  induction m with
  | nil => rfl
  | cons q t ih =>
    simp only [List.map_cons]
    by_cases hq : q.1 == k
    · rw [if_pos hq]
      have hkk : ¬((k : String) == k') = true := by
        simp only [beq_iff_eq]
        intro hx
        exact h hx.symm
      have hqk : ¬(q.1 == k') = true := by
        simp only [beq_iff_eq] at hq ⊢
        rw [hq]
        intro hx
        exact h hx.symm
      simp only [mapGet, List.find?_cons, hkk, hqk]
      exact ih
    · rw [if_neg hq]
      by_cases hq' : q.1 == k'
      · simp only [mapGet, List.find?_cons, hq']
      · simp only [mapGet, List.find?_cons, hq']
        exact ih

lemma mapGet_mapSet (m : VMap) (k : String) (v : ProcessedVulnerability) (k' : String) :
    mapGet (mapSet m k v) k' = if k' = k then some v else mapGet m k' := by
  by_cases hk : k' = k
  · subst hk
    rw [if_pos rfl]
    cases h : hasKey m k'
    · rw [mapSet_not_has m k' v h]
      simp only [mapGet, List.find?_append, find?_key_none m k' h, Option.none_or]
      simp [List.find?]
    · simp only [mapSet, if_pos h]
      exact mapGet_map_replace_self m k' v h
  · rw [if_neg hk]
    cases h : hasKey m k
    · rw [mapSet_not_has m k v h]
      simp only [mapGet, List.find?_append]
      have hkk : (k == k') = false := by
        rw [beq_eq_false_iff_ne]
        exact fun hx => hk hx.symm
      have : List.find? (fun p => p.1 == k') [(k, v)] = none := by
        simp [List.find?_cons, hkk]
      rw [this, Option.or_none]
    · simp only [mapSet, if_pos h]
      exact mapGet_map_replace_other m k v k' hk

lemma foldl_flatten {α β : Type} (f : β → α → β) (L : List (List α)) (init : β) :
    L.flatten.foldl f init = L.foldl (fun acc l => l.foldl f acc) init := by
  induction L generalizing init with
  | nil => rfl
  | cons l t ih => simp [List.flatten_cons, List.foldl_append, ih]

lemma extract_eq_foldl (r : TrivyScanResults) :
    extractVulnerabilities r =
      (allVulns r).foldl (fun a v => mapSet a (keyOf v) (recordOf v)) [] := by
  rw [allVulns, foldl_flatten, List.foldl_map]
  rfl

lemma parse_eq_foldl (r : TrivyScanResults) :
    parseTrivyCounts r =
      (let counts := (allVulns r).foldl parseStep VulnerabilityCounts.zero
       { counts with
         total := counts.critical + counts.high + counts.medium + counts.low +
           counts.unknown }) := by
  rw [parseTrivyCounts, allVulns, foldl_flatten, List.foldl_map]

lemma mem_keys_foldl_mapSet (l : List TrivyVulnerability) (acc : VMap) (k : String) :
    k ∈ mapKeys (l.foldl (fun a v => mapSet a (keyOf v) (recordOf v)) acc) ↔
      k ∈ mapKeys acc ∨ ∃ v ∈ l, keyOf v = k := by
  induction l generalizing acc with
  | nil => simp
  | cons v t ih =>
    simp only [List.foldl_cons]
    rw [ih]
    rw [mem_mapKeys_mapSet]
    simp only [List.mem_cons]
    constructor
    · rintro ((hacc | rfl) | ⟨w, hw, rfl⟩)
      · exact Or.inl hacc
      · exact Or.inr ⟨v, Or.inl rfl, rfl⟩
      · exact Or.inr ⟨w, Or.inr hw, rfl⟩
    · rintro (hacc | ⟨w, (rfl | hw), rfl⟩)
      · exact Or.inl (Or.inl hacc)
      · exact Or.inl (Or.inr rfl)
      · exact Or.inr ⟨w, hw, rfl⟩

lemma mapGet_foldl (l : List TrivyVulnerability) (acc : VMap) (k : String) :
    mapGet (l.foldl (fun a v => mapSet a (keyOf v) (recordOf v)) acc) k =
      (match l.reverse.find? (fun v => keyOf v == k) with
       | some v => some (recordOf v)
       | none => mapGet acc k) := by
  induction l generalizing acc with
  | nil => simp
  | cons v t ih =>
    simp only [List.foldl_cons, List.reverse_cons, List.find?_append]
    rw [ih]
    cases hf : t.reverse.find? (fun v => keyOf v == k)
    · simp only [Option.none_or]
      rw [mapGet_mapSet]
      by_cases hv : keyOf v == k
      · have hk : k = keyOf v := by
          simp only [beq_iff_eq] at hv
          exact hv.symm
        simp [List.find?_cons, hv, hk]
      · simp only [List.find?_cons, hv]
        have : ¬k = keyOf v := by
          intro hx
          simp only [beq_iff_eq] at hv
          exact hv hx.symm
        simp [this]
    · rfl

lemma nodup_keys_foldl (l : List TrivyVulnerability) (acc : VMap)
    (h : (mapKeys acc).Nodup) :
    (mapKeys (l.foldl (fun a v => mapSet a (keyOf v) (recordOf v)) acc)).Nodup := by
  induction l generalizing acc with
  | nil => exact h
  | cons v t ih =>
    simp only [List.foldl_cons]
    exact ih _ (nodup_mapKeys_mapSet _ _ _ h)

lemma nodup_keys_extract (r : TrivyScanResults) :
    (mapKeys (extractVulnerabilities r)).Nodup := by
  rw [extract_eq_foldl]
  exact nodup_keys_foldl _ [] (by simp [mapKeys])

lemma countP_key_nodup (m : VMap) (h : (mapKeys m).Nodup) (k : String) :
    m.countP (fun p => p.1 == k) = if hasKey m k then 1 else 0 := by
  induction m with
  | nil => simp [hasKey]
  | cons q t ih =>
    simp only [mapKeys, List.map_cons, List.nodup_cons] at h
    rw [List.countP_cons, ih h.2]
    by_cases hq : (q.1 == k) = true
    · have hnt : hasKey t k = false := by
        rw [hasKey_false_iff]
        intro hmem
        apply h.1
        simp only [beq_iff_eq] at hq
        rw [hq]
        exact hmem
      have hqt : hasKey (q :: t) k = true := by
        simp [hasKey, List.any_cons, hq]
      simp [hq, hnt, hqt]
    · simp only [Bool.not_eq_true] at hq
      have hqt : hasKey (q :: t) k = hasKey t k := by
        simp [hasKey, List.any_cons, hq]
      simp [hq, hqt]

lemma mem_mapSet_sub (m : VMap) (k : String) (v : ProcessedVulnerability)
    (x : String × ProcessedVulnerability) (h : x ∈ mapSet m k v) :
    x ∈ m ∨ x = (k, v) := by
  unfold mapSet at h
  split at h
  · obtain ⟨p, hp, hpx⟩ := List.mem_map.mp h
    by_cases hq : p.1 == k
    · rw [if_pos hq] at hpx
      exact Or.inr hpx.symm
    · rw [if_neg hq] at hpx
      exact Or.inl (hpx ▸ hp)
  · rw [List.mem_append] at h
    rcases h with h | h
    · exact Or.inl h
    · simp only [List.mem_singleton] at h
      exact Or.inr h

lemma mem_foldl_keepPos_sub (Q : String → Bool) (l : VMap) (acc : VMap)
    (x : String × ProcessedVulnerability)
    (h : x ∈ l.foldl (fun a p => if Q p.1 then mapSet a p.1 p.2 else a) acc) :
    x ∈ acc ∨ x ∈ l := by
  induction l generalizing acc with
  | nil => exact Or.inl h
  | cons q t ih =>
    simp only [List.foldl_cons] at h
    rcases ih _ h with hacc | ht
    · split at hacc
      · rcases mem_mapSet_sub _ _ _ _ hacc with hm | hx
        · exact Or.inl hm
        · right
          rw [List.mem_cons]
          left
          rw [hx]
      · exact Or.inl hacc
    · exact Or.inr (List.mem_cons_of_mem _ ht)

/-- C8: extraction keys every record by `(vulnerability ID)-(package)`;
for any key, the extracted map holds exactly one entry when some record
of the traversal bears that key (none otherwise), and its attributes are
those of the last-seen occurrence in traversal order. -/
theorem C8_dedup_last_wins (d : TrivyScanResults) (k : String) :
    ((extractVulnerabilities d).countP (fun p => p.1 == k) =
      if (allVulns d).any (fun v => keyOf v == k) then 1 else 0) ∧
    mapGet (extractVulnerabilities d) k =
      ((allVulns d).reverse.find? (fun v => keyOf v == k)).map recordOf := by
  constructor
  · rw [countP_key_nodup _ (nodup_keys_extract d) k]
    have h1 : hasKey (extractVulnerabilities d) k = true ↔
        ∃ v ∈ allVulns d, keyOf v = k := by
      rw [extract_eq_foldl, hasKey_iff, mem_keys_foldl_mapSet]
      simp [mapKeys]
    have h2 : (allVulns d).any (fun v => keyOf v == k) = true ↔
        ∃ v ∈ allVulns d, keyOf v = k := by
      simp [List.any_eq_true, beq_iff_eq]
    have h3 : hasKey (extractVulnerabilities d) k =
        (allVulns d).any (fun v => keyOf v == k) :=
      Bool.eq_iff_iff.mpr (h1.trans h2.symm)
    rw [h3]
  · rw [extract_eq_foldl, mapGet_foldl]
    cases hf : (allVulns d).reverse.find? (fun v => keyOf v == k) <;> simp [mapGet]

/-- C10 (implicit): every record in the unchanged partition is an entry of
the current-side map — its attributes come from the current document, not
the baseline. -/
theorem C10_unchanged_from_current
    (baselineResults currentResults : TrivyScanResults)
    (x : String × ProcessedVulnerability)
    (h : x ∈ unchangedVulnsOf (extractVulnerabilities currentResults)
      (extractVulnerabilities baselineResults)) :
    x ∈ extractVulnerabilities currentResults := by
  rw [unchangedVulnsOf] at h
  rcases mem_foldl_keepPos_sub _ _ _ _ h with h0 | h1
  · simp at h0
  · exact h1

/-- Witness for C10: with a baseline record `LOW`/no fix and a current
record `HIGH`/fixed for the same key, the unchanged entry carries the
current attributes. -/
theorem C10_unchanged_from_current_witness :
    (let vb : TrivyVulnerability :=
      { VulnerabilityID := some "CVE-1"
        PkgName := some "pkg"
        InstalledVersion := some "1.0"
        FixedVersion := none
        Severity := some "LOW"
        Title := none
        Description := none }
     let vc : TrivyVulnerability :=
      { VulnerabilityID := some "CVE-1"
        PkgName := some "pkg"
        InstalledVersion := some "1.0"
        FixedVersion := some "1.1"
        Severity := some "HIGH"
        Title := none
        Description := none }
     let baselineResults : TrivyScanResults :=
       { Results := some [{ Vulnerabilities := some [vb] }] }
     let currentResults : TrivyScanResults :=
       { Results := some [{ Vulnerabilities := some [vc] }] }
     ("CVE-1-pkg", recordOf vc) ∈
         unchangedVulnsOf (extractVulnerabilities currentResults)
           (extractVulnerabilities baselineResults) ∧
       recordOf vb ≠ recordOf vc ∧
       ("CVE-1-pkg", recordOf vc) ∈ extractVulnerabilities currentResults) := by
  refine ⟨by decide, by decide, ?_⟩
  exact C10_unchanged_from_current
    { Results := some
        [{ Vulnerabilities := some
            [{ VulnerabilityID := some "CVE-1"
               PkgName := some "pkg"
               InstalledVersion := some "1.0"
               FixedVersion := none
               Severity := some "LOW"
               Title := none
               Description := none }] }] }
    { Results := some
        [{ Vulnerabilities := some
            [{ VulnerabilityID := some "CVE-1"
               PkgName := some "pkg"
               InstalledVersion := some "1.0"
               FixedVersion := some "1.1"
               Severity := some "HIGH"
               Title := none
               Description := none }] }] }
    _ (by decide)

lemma mem_keys_foldl_keepNeg (Q : String → Bool) (l : VMap) (acc : VMap) (k : String) :
    k ∈ mapKeys (l.foldl (fun a p => if Q p.1 then a else mapSet a p.1 p.2) acc) ↔
      k ∈ mapKeys acc ∨ ∃ p ∈ l, Q p.1 = false ∧ p.1 = k := by
  induction l generalizing acc with
  | nil => simp
  | cons q t ih =>
    simp only [List.foldl_cons]
    by_cases hq : Q q.1 = true
    · rw [if_pos hq, ih]
      simp only [List.mem_cons]
      constructor
      · rintro (hacc | ⟨p, hp, hqp, rfl⟩)
        · exact Or.inl hacc
        · exact Or.inr ⟨p, Or.inr hp, hqp, rfl⟩
      · rintro (hacc | ⟨p, (rfl | hp), hqp, rfl⟩)
        · exact Or.inl hacc
        · exact absurd hqp (by simp [hq])
        · exact Or.inr ⟨p, hp, hqp, rfl⟩
    · rw [if_neg hq, ih]
      simp only [Bool.not_eq_true] at hq
      simp only [List.mem_cons]
      constructor
      · rintro (hacc | ⟨p, hp, hqp, rfl⟩)
        · rcases (mem_mapKeys_mapSet acc q.1 q.2 k).mp hacc with hm | rfl
          · exact Or.inl hm
          · exact Or.inr ⟨q, Or.inl rfl, hq, rfl⟩
        · exact Or.inr ⟨p, Or.inr hp, hqp, rfl⟩
      · rintro (hacc | ⟨p, (rfl | hp), hqp, rfl⟩)
        · exact Or.inl ((mem_mapKeys_mapSet acc q.1 q.2 _).mpr (Or.inl hacc))
        · exact Or.inl ((mem_mapKeys_mapSet acc p.1 p.2 _).mpr (Or.inr rfl))
        · exact Or.inr ⟨p, hp, hqp, rfl⟩

lemma mem_keys_foldl_keepPos (Q : String → Bool) (l : VMap) (acc : VMap) (k : String) :
    k ∈ mapKeys (l.foldl (fun a p => if Q p.1 then mapSet a p.1 p.2 else a) acc) ↔
      k ∈ mapKeys acc ∨ ∃ p ∈ l, Q p.1 = true ∧ p.1 = k := by
  induction l generalizing acc with
  | nil => simp
  | cons q t ih =>
    simp only [List.foldl_cons]
    by_cases hq : Q q.1 = true
    · rw [if_pos hq, ih]
      simp only [List.mem_cons]
      constructor
      · rintro (hacc | ⟨p, hp, hqp, rfl⟩)
        · rcases (mem_mapKeys_mapSet acc q.1 q.2 k).mp hacc with hm | rfl
          · exact Or.inl hm
          · exact Or.inr ⟨q, Or.inl rfl, hq, rfl⟩
        · exact Or.inr ⟨p, Or.inr hp, hqp, rfl⟩
      · rintro (hacc | ⟨p, (rfl | hp), hqp, rfl⟩)
        · exact Or.inl ((mem_mapKeys_mapSet acc q.1 q.2 _).mpr (Or.inl hacc))
        · exact Or.inl ((mem_mapKeys_mapSet acc p.1 p.2 _).mpr (Or.inr rfl))
        · exact Or.inr ⟨p, hp, hqp, rfl⟩
    · rw [if_neg hq, ih]
      simp only [Bool.not_eq_true] at hq
      simp only [List.mem_cons]
      constructor
      · rintro (hacc | ⟨p, hp, hqp, rfl⟩)
        · exact Or.inl hacc
        · exact Or.inr ⟨p, Or.inr hp, hqp, rfl⟩
      · rintro (hacc | ⟨p, (rfl | hp), hqp, rfl⟩)
        · exact Or.inl hacc
        · exact absurd hqp (by simp [hq])
        · exact Or.inr ⟨p, hp, hqp, rfl⟩

lemma mem_keys_new (currentVulns baselineVulns : VMap) (k : String) :
    k ∈ mapKeys (newVulnsOf currentVulns baselineVulns) ↔
      k ∈ mapKeys currentVulns ∧ hasKey baselineVulns k = false := by
  rw [newVulnsOf, mem_keys_foldl_keepNeg]
  simp only [mapKeys, List.map_nil, List.not_mem_nil, false_or]
  constructor
  · rintro ⟨p, hp, hq, rfl⟩
    exact ⟨List.mem_map_of_mem _ hp, hq⟩
  · rintro ⟨hk, hq⟩
    obtain ⟨p, hp, rfl⟩ := List.mem_map.mp hk
    exact ⟨p, hp, hq, rfl⟩

lemma mem_keys_fixed (currentVulns baselineVulns : VMap) (k : String) :
    k ∈ mapKeys (fixedVulnsOf currentVulns baselineVulns) ↔
      k ∈ mapKeys baselineVulns ∧ hasKey currentVulns k = false := by
  rw [fixedVulnsOf, mem_keys_foldl_keepNeg]
  simp only [mapKeys, List.map_nil, List.not_mem_nil, false_or]
  constructor
  · rintro ⟨p, hp, hq, rfl⟩
    exact ⟨List.mem_map_of_mem _ hp, hq⟩
  · rintro ⟨hk, hq⟩
    obtain ⟨p, hp, rfl⟩ := List.mem_map.mp hk
    exact ⟨p, hp, hq, rfl⟩

lemma mem_keys_unchanged (currentVulns baselineVulns : VMap) (k : String) :
    k ∈ mapKeys (unchangedVulnsOf currentVulns baselineVulns) ↔
      k ∈ mapKeys currentVulns ∧ hasKey baselineVulns k = true := by
  rw [unchangedVulnsOf, mem_keys_foldl_keepPos]
  simp only [mapKeys, List.map_nil, List.not_mem_nil, false_or]
  constructor
  · rintro ⟨p, hp, hq, rfl⟩
    exact ⟨List.mem_map_of_mem _ hp, hq⟩
  · rintro ⟨hk, hq⟩
    obtain ⟨p, hp, rfl⟩ := List.mem_map.mp hk
    exact ⟨p, hp, hq, rfl⟩

lemma foldl_keepNeg_nil (Q : String → Bool) (l : VMap)
    (h : ∀ p ∈ l, Q p.1 = true) :
    l.foldl (fun a p => if Q p.1 then a else mapSet a p.1 p.2) [] = [] := by
  have hgen : ∀ (t : VMap) (acc : VMap), (∀ p ∈ t, Q p.1 = true) →
      t.foldl (fun a p => if Q p.1 then a else mapSet a p.1 p.2) acc = acc := by
    intro t
    induction t with
    | nil => intro acc _; rfl
    | cons q r ih =>
      intro acc hqt
      simp only [List.foldl_cons, if_pos (hqt q (by simp))]
      exact ih acc (fun p hp => hqt p (by simp [hp]))
  exact hgen l [] h

lemma foldl_keepPos_self (Q : String → Bool) : ∀ (l acc : VMap),
    (∀ p ∈ l, Q p.1 = true) → (∀ p ∈ l, hasKey acc p.1 = false) →
    (mapKeys l).Nodup →
    l.foldl (fun a p => if Q p.1 then mapSet a p.1 p.2 else a) acc = acc ++ l := by
  intro l
  induction l with
  | nil => intro acc _ _ _; simp
  | cons q t ih =>
    intro acc hq hacc hnd
    simp only [mapKeys, List.map_cons, List.nodup_cons] at hnd
    simp only [List.foldl_cons, if_pos (hq q (by simp))]
    rw [mapSet_not_has acc q.1 q.2 (hacc q (by simp))]
    rw [ih (acc ++ [(q.1, q.2)]) (fun p hp => hq p (by simp [hp])) ?_ hnd.2]
    · simp
    · intro p hp
      rw [hasKey_append]
      have h1 : hasKey acc p.1 = false := hacc p (by simp [hp])
      have h2 : hasKey [(q.1, q.2)] p.1 = false := by
        simp only [hasKey, List.any_cons, List.any_nil, Bool.or_false]
        rw [beq_eq_false_iff_ne]
        intro hx
        apply hnd.1
        rw [hx]
        exact List.mem_map_of_mem _ hp
      rw [h1, h2]
      rfl

/-- C6: over the identity keys, the three partitions are pairwise
disjoint, new and unchanged exactly cover the current keys, fixed and
unchanged exactly cover the baseline keys; and with equal extracted maps
the new and fixed partitions are empty and unchanged is the whole
current map. -/
theorem C6_diff_set_algebra (baselineResults currentResults : TrivyScanResults) :
    (∀ k, ¬(k ∈ mapKeys (newVulnsOf (extractVulnerabilities currentResults)
        (extractVulnerabilities baselineResults)) ∧
      k ∈ mapKeys (fixedVulnsOf (extractVulnerabilities currentResults)
        (extractVulnerabilities baselineResults)))) ∧
    (∀ k, ¬(k ∈ mapKeys (newVulnsOf (extractVulnerabilities currentResults)
        (extractVulnerabilities baselineResults)) ∧
      k ∈ mapKeys (unchangedVulnsOf (extractVulnerabilities currentResults)
        (extractVulnerabilities baselineResults)))) ∧
    (∀ k, ¬(k ∈ mapKeys (fixedVulnsOf (extractVulnerabilities currentResults)
        (extractVulnerabilities baselineResults)) ∧
      k ∈ mapKeys (unchangedVulnsOf (extractVulnerabilities currentResults)
        (extractVulnerabilities baselineResults)))) ∧
    (∀ k, (k ∈ mapKeys (newVulnsOf (extractVulnerabilities currentResults)
        (extractVulnerabilities baselineResults)) ∨
      k ∈ mapKeys (unchangedVulnsOf (extractVulnerabilities currentResults)
        (extractVulnerabilities baselineResults))) ↔
      k ∈ mapKeys (extractVulnerabilities currentResults)) ∧
    (∀ k, (k ∈ mapKeys (fixedVulnsOf (extractVulnerabilities currentResults)
        (extractVulnerabilities baselineResults)) ∨
      k ∈ mapKeys (unchangedVulnsOf (extractVulnerabilities currentResults)
        (extractVulnerabilities baselineResults))) ↔
      k ∈ mapKeys (extractVulnerabilities baselineResults)) ∧
    (extractVulnerabilities baselineResults = extractVulnerabilities currentResults →
      newVulnsOf (extractVulnerabilities currentResults)
        (extractVulnerabilities baselineResults) = [] ∧
      fixedVulnsOf (extractVulnerabilities currentResults)
        (extractVulnerabilities baselineResults) = [] ∧
      unchangedVulnsOf (extractVulnerabilities currentResults)
        (extractVulnerabilities baselineResults) =
        extractVulnerabilities currentResults) := by
  refine ⟨?_, ?_, ?_, ?_, ?_, ?_⟩
  · rintro k ⟨hn, hf⟩
    rw [mem_keys_new] at hn
    rw [mem_keys_fixed] at hf
    rw [hasKey_false_iff] at hn
    exact hn.2 hf.1
  · rintro k ⟨hn, hu⟩
    rw [mem_keys_new] at hn
    rw [mem_keys_unchanged] at hu
    rw [hn.2] at hu
    exact absurd hu.2 (by simp)
  · rintro k ⟨hf, hu⟩
    rw [mem_keys_fixed] at hf
    rw [mem_keys_unchanged] at hu
    rw [hasKey_false_iff] at hf
    exact hf.2 hu.1
  · intro k
    rw [mem_keys_new, mem_keys_unchanged]
    constructor
    · rintro (⟨hc, -⟩ | ⟨hc, -⟩) <;> exact hc
    · intro hc
      cases hb : hasKey (extractVulnerabilities baselineResults) k
      · exact Or.inl ⟨hc, rfl⟩
      · exact Or.inr ⟨hc, rfl⟩
  · intro k
    rw [mem_keys_fixed, mem_keys_unchanged]
    constructor
    · rintro (⟨hb, -⟩ | ⟨-, hb⟩)
      · exact hb
      · exact (hasKey_iff _ _).mp hb
    · intro hb
      cases hc : hasKey (extractVulnerabilities currentResults) k
      · exact Or.inl ⟨hb, rfl⟩
      · right
        refine ⟨(hasKey_iff _ _).mp hc, (hasKey_iff _ _).mpr hb⟩
  · intro hBC
    have hall : ∀ p ∈ extractVulnerabilities currentResults,
        hasKey (extractVulnerabilities baselineResults) p.1 = true := by
      intro p hp
      rw [hBC]
      exact (hasKey_iff _ _).mpr (List.mem_map_of_mem _ hp)
    refine ⟨foldl_keepNeg_nil _ _ hall, ?_, ?_⟩
    · apply foldl_keepNeg_nil
      intro p hp
      rw [← hBC]
      exact (hasKey_iff _ _).mpr (List.mem_map_of_mem _ hp)
    · rw [unchangedVulnsOf,
        foldl_keepPos_self _ _ [] hall (fun p _ => rfl) (nodup_keys_extract _)]
      simp

lemma err_msg_ne (e : String) : ¬("Error: " ++ e) = "" := by
  intro hx
  have hl := congrArg String.length hx
  rw [String.length_append] at hl
  have h7 : ("Error: ").length = 7 := rfl
  have h0 : ("" : String).length = 0 := rfl
  omega

/-- C7: when the baseline file is absent, the current file is absent, or
either fails to parse, the differ still returns a report — marked
unavailable, with a non-empty message; on two parsed documents the report
is available and all five sections are populated. -/
theorem C7_degraded_comparison :
    (∀ baseline current : ScanInput,
      (baseline = ScanInput.missing ∨ current = ScanInput.missing ∨
        (∃ e, baseline = ScanInput.unparseable e) ∨
        (∃ e, current = ScanInput.unparseable e)) →
      (generateComparison baseline current).comparison_available = false ∧
      ∃ m, (generateComparison baseline current).message = some m ∧ ¬m = "") ∧
    (∀ baselineResults currentResults : TrivyScanResults,
      (generateComparison (ScanInput.parsed baselineResults)
        (ScanInput.parsed currentResults)).comparison_available = true ∧
      (generateComparison (ScanInput.parsed baselineResults)
        (ScanInput.parsed currentResults)).baseline.isSome = true ∧
      (generateComparison (ScanInput.parsed baselineResults)
        (ScanInput.parsed currentResults)).current.isSome = true ∧
      (generateComparison (ScanInput.parsed baselineResults)
        (ScanInput.parsed currentResults)).new.isSome = true ∧
      (generateComparison (ScanInput.parsed baselineResults)
        (ScanInput.parsed currentResults)).fixed.isSome = true ∧
      (generateComparison (ScanInput.parsed baselineResults)
        (ScanInput.parsed currentResults)).unchanged.isSome = true) := by
  constructor
  · intro b c h
    cases b with
    | missing => exact ⟨rfl, _, rfl, by decide⟩
    | unparseable e =>
      cases c with
      | missing => exact ⟨rfl, _, rfl, by decide⟩
      | unparseable e2 => exact ⟨rfl, _, rfl, err_msg_ne e⟩
      | parsed cD => exact ⟨rfl, _, rfl, err_msg_ne e⟩
    | parsed bD =>
      cases c with
      | missing => exact ⟨rfl, _, rfl, by decide⟩
      | unparseable e2 => exact ⟨rfl, _, rfl, err_msg_ne e2⟩
      | parsed cD => rcases h with h | h | ⟨e, h⟩ | ⟨e, h⟩ <;> simp at h
  · intro bD cD
    exact ⟨rfl, rfl, rfl, rfl, rfl, rfl⟩

/-- Witness for C7: a missing baseline beside a parsed empty current
document yields an unavailable comparison with a non-empty message. -/
theorem C7_degraded_comparison_witness :
    (generateComparison ScanInput.missing
      (ScanInput.parsed { Results := none })).comparison_available = false ∧
    ∃ m, (generateComparison ScanInput.missing
      (ScanInput.parsed { Results := none })).message = some m ∧ ¬m = "" :=
  C7_degraded_comparison.1 ScanInput.missing (ScanInput.parsed { Results := none })
    (Or.inl rfl)

lemma countStep_recordOf (c : VulnerabilityCounts) (v : TrivyVulnerability) :
    countStep c (recordOf v) = { parseStep c v with total := c.total + 1 } := by
  have hcr := lu_eq_iff (v.Severity.getD "UNKNOWN") "critical" "CRITICAL"
    (by decide) (by decide)
  have hhi := lu_eq_iff (v.Severity.getD "UNKNOWN") "high" "HIGH" (by decide) (by decide)
  have hme := lu_eq_iff (v.Severity.getD "UNKNOWN") "medium" "MEDIUM"
    (by decide) (by decide)
  have hlo := lu_eq_iff (v.Severity.getD "UNKNOWN") "low" "LOW" (by decide) (by decide)
  simp only [countStep, parseStep, recordOf]
  by_cases h1 : jsToUpper (v.Severity.getD "UNKNOWN") = "CRITICAL"
  · rw [if_pos (hcr.mpr h1), if_pos h1]
  · rw [if_neg (fun hx => h1 (hcr.mp hx)), if_neg h1]
    by_cases h2 : jsToUpper (v.Severity.getD "UNKNOWN") = "HIGH"
    · rw [if_pos (hhi.mpr h2), if_pos h2]
    · rw [if_neg (fun hx => h2 (hhi.mp hx)), if_neg h2]
      by_cases h3 : jsToUpper (v.Severity.getD "UNKNOWN") = "MEDIUM"
      · rw [if_pos (hme.mpr h3), if_pos h3]
      · rw [if_neg (fun hx => h3 (hme.mp hx)), if_neg h3]
        by_cases h4 : jsToUpper (v.Severity.getD "UNKNOWN") = "LOW"
        · rw [if_pos (hlo.mpr h4), if_pos h4]
        · rw [if_neg (fun hx => h4 (hlo.mp hx)), if_neg h4]

lemma parseStep_total (c : VulnerabilityCounts) (T : Nat) (v : TrivyVulnerability) :
    parseStep { c with total := T } v = { parseStep c v with total := T } := by
  simp only [parseStep]
  split_ifs <;> rfl

lemma foldl_parseStep_total (l : List TrivyVulnerability) :
    ∀ (c : VulnerabilityCounts) (T : Nat),
      l.foldl parseStep { c with total := T } = { l.foldl parseStep c with total := T } := by
  induction l with
  | nil => intro c T; rfl
  | cons v t ih =>
    intro c T
    simp only [List.foldl_cons, parseStep_total]
    exact ih _ _

lemma count_fold_rel (l : List TrivyVulnerability) :
    ∀ c : VulnerabilityCounts,
      l.foldl (fun counts v => countStep counts (recordOf v)) c =
        { l.foldl parseStep c with total := c.total + l.length } := by
  induction l with
  | nil => intro c; rfl
  | cons v t ih =>
    intro c
    show t.foldl (fun counts v => countStep counts (recordOf v))
        (countStep c (recordOf v)) =
      { (v :: t).foldl parseStep c with total := c.total + (v :: t).length }
    rw [countStep_recordOf, ih, foldl_parseStep_total]
    have harith : c.total + 1 + t.length = c.total + (t.length + 1) := by omega
    rw [harith]
    rfl

lemma parseStep_sum (c : VulnerabilityCounts) (v : TrivyVulnerability) :
    (parseStep c v).critical + (parseStep c v).high + (parseStep c v).medium +
        (parseStep c v).low + (parseStep c v).unknown =
      c.critical + c.high + c.medium + c.low + c.unknown + 1 := by
  simp only [parseStep]
  split_ifs <;> simp <;> omega

lemma parse_fold_sum (l : List TrivyVulnerability) :
    ∀ c : VulnerabilityCounts,
      (l.foldl parseStep c).critical + (l.foldl parseStep c).high +
          (l.foldl parseStep c).medium + (l.foldl parseStep c).low +
          (l.foldl parseStep c).unknown =
        c.critical + c.high + c.medium + c.low + c.unknown + l.length := by
  induction l with
  | nil => intro c; simp
  | cons v t ih =>
    intro c
    simp only [List.foldl_cons, List.length_cons]
    rw [ih (parseStep c v), parseStep_sum]
    omega

lemma foldl_mapSet_map (l : List TrivyVulnerability) :
    ∀ acc : VMap, (∀ v ∈ l, hasKey acc (keyOf v) = false) → (l.map keyOf).Nodup →
      l.foldl (fun a v => mapSet a (keyOf v) (recordOf v)) acc =
        acc ++ l.map (fun v => (keyOf v, recordOf v)) := by
  induction l with
  | nil => intro acc _ _; simp
  | cons v t ih =>
    intro acc hacc hnd
    simp only [List.map_cons, List.nodup_cons] at hnd
    simp only [List.foldl_cons]
    rw [mapSet_not_has acc _ _ (hacc v (by simp))]
    rw [ih (acc ++ [(keyOf v, recordOf v)]) ?_ hnd.2]
    · simp
    · intro w hw
      rw [hasKey_append]
      have h1 : hasKey acc (keyOf w) = false := hacc w (by simp [hw])
      have h2 : hasKey [(keyOf v, recordOf v)] (keyOf w) = false := by
        simp only [hasKey, List.any_cons, List.any_nil, Bool.or_false]
        rw [beq_eq_false_iff_ne]
        intro hx
        apply hnd.1
        rw [hx]
        exact List.mem_map_of_mem _ hw
      rw [h1, h2]
      rfl

/-- C9 counterexample: the summarizer counts every traversed record while
`countBySeverity ∘ extractVulnerabilities` counts deduplicated keys, so on
a document carrying the same (ID, package) pair in two result targets the
two differ (total 2 against total 1). -/
theorem C9_dedup_counterexample :
    (let vv : TrivyVulnerability :=
      { VulnerabilityID := some "CVE-1"
        PkgName := some "pkg"
        InstalledVersion := none
        FixedVersion := none
        Severity := some "HIGH"
        Title := none
        Description := none }
     let d : TrivyScanResults :=
       { Results := some [{ Vulnerabilities := some [vv] },
                          { Vulnerabilities := some [vv] }] }
     parseTrivyCounts d ≠ countBySeverity (extractVulnerabilities d) ∧
       (parseTrivyCounts d).total = 2 ∧
       (countBySeverity (extractVulnerabilities d)).total = 1) := by
  exact ⟨by decide, by decide, by decide⟩

/-- C9 (amended): on every scan document whose traversal produces pairwise
distinct identity keys, the non-diffing summarizer's severity counts and
total coincide with bucketing the differ-side extraction — the two walks
and bucketing rules agree, and deduplication is then the identity. -/
theorem C9_summary_refinement (d : TrivyScanResults)
    (hnd : ((allVulns d).map keyOf).Nodup) :
    parseTrivyCounts d = countBySeverity (extractVulnerabilities d) := by
  rw [extract_eq_foldl, foldl_mapSet_map (allVulns d) [] (fun v _ => rfl) hnd,
    List.nil_append]
  rw [countBySeverity, List.foldl_map]
  show parseTrivyCounts d =
    (allVulns d).foldl (fun counts v => countStep counts (recordOf v))
      VulnerabilityCounts.zero
  rw [count_fold_rel, parse_eq_foldl]
  simp only []
  have hsum := parse_fold_sum (allVulns d) VulnerabilityCounts.zero
  simp only [VulnerabilityCounts.zero] at hsum ⊢
  congr 1

/-- Witness for C9 (amended): a document with two distinct keys, one of
them with a lower-case severity string, satisfies the key-distinctness
hypothesis and the count equality. -/
theorem C9_summary_refinement_witness :
    (let v1 : TrivyVulnerability :=
      { VulnerabilityID := some "CVE-1"
        PkgName := some "pkga"
        InstalledVersion := none
        FixedVersion := none
        Severity := some "HIGH"
        Title := none
        Description := none }
     let v2 : TrivyVulnerability :=
      { VulnerabilityID := some "CVE-2"
        PkgName := some "pkgb"
        InstalledVersion := none
        FixedVersion := none
        Severity := some "low"
        Title := none
        Description := none }
     let d : TrivyScanResults :=
       { Results := some [{ Vulnerabilities := some [v1, v2] }] }
     ((allVulns d).map keyOf).Nodup ∧
       parseTrivyCounts d = countBySeverity (extractVulnerabilities d)) := by
  refine ⟨by decide, ?_⟩
  exact C9_summary_refinement _ (by decide)


/-- Witness for C6: with identical baseline and current documents the new
and fixed partitions are empty and unchanged is the whole current map. -/
theorem C6_diff_set_algebra_witness :
    (let d : TrivyScanResults :=
       { Results := some
           [{ Vulnerabilities := some
               [{ VulnerabilityID := some "CVE-2"
                  PkgName := some "lib"
                  InstalledVersion := none
                  FixedVersion := none
                  Severity := some "MEDIUM"
                  Title := none
                  Description := none }] }] }
     newVulnsOf (extractVulnerabilities d) (extractVulnerabilities d) = [] ∧
       fixedVulnsOf (extractVulnerabilities d) (extractVulnerabilities d) = [] ∧
       unchangedVulnsOf (extractVulnerabilities d) (extractVulnerabilities d) =
         extractVulnerabilities d) := by
  exact (C6_diff_set_algebra
    { Results := some
        [{ Vulnerabilities := some
            [{ VulnerabilityID := some "CVE-2"
               PkgName := some "lib"
               InstalledVersion := none
               FixedVersion := none
               Severity := some "MEDIUM"
               Title := none
               Description := none }] }] }
    { Results := some
        [{ Vulnerabilities := some
            [{ VulnerabilityID := some "CVE-2"
               PkgName := some "lib"
               InstalledVersion := none
               FixedVersion := none
               Severity := some "MEDIUM"
               Title := none
               Description := none }] }] }).2.2.2.2.2 rfl

end BuildFlow
